import Mathlib

/-!
GPAPA pipe-access layer: colon-record extraction, key rings, keyserver quoting.

A shallow embedding of `gpapa.c` / `gpapakey.c` (the GNU Privacy Assistant
pipe-access layer) and the properties of its record extractor, fingerprint
formatter, date parser, key-ring cache, keyserver quoting, HTML stripping,
keyserver error reports and keyserver search.

Conventions of the embedding.

* A C string is the list of the characters that precede its terminating NUL.
  A `char *` that may be `NULL` is an `Option`.
* `GPAPA_MAX_GPG_KEY_FIELDS` is declared in `gpapa.h`, which is not part of the
  sources at hand; every function that uses it takes it as the parameter
  `maxFields`.
* The reporting callback is modelled by the list of its invocations, in order.
* `int` counters are natural numbers; all of them are bounded by the length of
  the string being walked, which is taken to be below `2 ^ 31`.
* The file-scope variables of `gpapa.c` form an explicit state; a `GList` is a
  list, and a pointer to a `GpapaKey` is modelled by the key it points to.
* The tool behind `gpapa_call_gnupg` is a parameter: what it delivers on each
  invocation is given from outside.
* `keyserver.h` is not part of the sources at hand either: the error codes it
  declares are taken from the specification, and what the keyserver returns
  (statuses, records, diagnostic text) is given from outside. Messages are
  those of the untranslated locale.
-/

namespace Gpapa

/-- A C string: the characters before the terminating NUL. -/
abbrev CStr := List Char

/-! ## Data model -/

/-- The action codes handed to the reporting callback (`gpapa.h`); the code at
hand only ever passes the error action. -/
inductive GpapaAction where
  | GPAPA_ACTION_ERROR
  deriving DecidableEq

/-- One invocation of the reporting callback: `callback (action, message, calldata)`. -/
structure CallbackEvent where
  action : GpapaAction
  message : String
  deriving DecidableEq

/-- A `GDate` holding a day, a month and a year. -/
structure GDate where
  day : Nat
  month : Nat
  year : Nat
  deriving DecidableEq

/-- The record `GpapaKey`, with the members the code reads and writes. A pointer
member is an `Option`, `NULL` being `none`; the two `GList *` members are lists. -/
structure GpapaKey where
  KeyID : Option CStr
  LocalID : Option CStr
  UserID : Option CStr
  uids : List CStr
  subs : List CStr
  CreationDate : Option GDate
  ExpirationDate : Option GDate
  KeyTrust : Char
  OwnerTrust : Char
  bits : Int
  algorithm : Int
  deriving DecidableEq

/-- The NUL character, read where a C string is empty. -/
def NUL : Char := Char.ofNat 0

/-- The expression `s[0]` on a C string: its first character, the terminator
when the string is empty. -/
def firstChar (s : CStr) : Char := s.headD NUL

/-! ## Library functions used by the code -/

/-- The C library predicate `isspace` in the "C" locale. -/
def isspace (c : Char) : Bool :=
  c = ' ' || (9 ≤ c.toNat && c.toNat ≤ 13)

/-- The test `*p >= '0' && *p <= '9'`. -/
def isdigit (c : Char) : Bool :=
  decide ('0'.toNat ≤ c.toNat) && decide (c.toNat ≤ '9'.toNat)

/-- The digit accumulation of `atoi`: consume decimal digits while there are any. -/
def atoiDigits : CStr → Nat → Nat
  | [], acc => acc
  | c :: cs, acc =>
    if isdigit c then atoiDigits cs (10 * acc + (c.toNat - '0'.toNat)) else acc

/-- The C library function `atoi`: skip white space, read an optional sign, then
the longest run of decimal digits. The value is the mathematical one (the C
result is undefined when it does not fit an `int`). -/
def atoi (s : CStr) : Int :=
  match s.dropWhile isspace with
  | [] => 0
  | c :: r =>
    if c = '-' then - (atoiDigits r 0 : Int)
    else if c = '+' then (atoiDigits r 0 : Int)
    else (atoiDigits (c :: r) 0 : Int)

/-- GLib's `g_date_is_leap_year`. -/
def g_date_is_leap_year (y : Nat) : Bool :=
  (y % 4 == 0 && y % 100 != 0) || y % 400 == 0

/-- GLib's table `days_in_months`, indexed by leap flag and month. -/
def days_in_months (leap : Bool) (m : Nat) : Nat :=
  match m with
  | 1 => 31
  | 2 => if leap then 29 else 28
  | 3 => 31
  | 4 => 30
  | 5 => 31
  | 6 => 30
  | 7 => 31
  | 8 => 31
  | 9 => 30
  | 10 => 31
  | 11 => 30
  | 12 => 31
  | _ => 0

/-- GLib's `g_date_valid_dmy` on a `GDateDay`, a `GDateMonth` and a `GDateYear`. -/
def g_date_valid_dmy (d m y : Nat) : Bool :=
  decide (0 < m) && decide (m < 13) && decide (0 < d) && decide (0 < y)
    && decide (d ≤ days_in_months (g_date_is_leap_year y) m)

/-- GLib's `g_date_new_dmy`, called with three `int` arguments: the day is
converted to `GDateDay` (`guint8`), the year to `GDateYear` (`guint16`), the
month to the enumeration `GDateMonth`; the result is `NULL` unless the
converted triple is a valid date. -/
def g_date_new_dmy (day month year : Int) : Option GDate :=
  let d := (day % 256).toNat
  let y := (year % 65536).toNat
  if 0 ≤ month ∧ g_date_valid_dmy d month.toNat y = true then
    some { day := d, month := month.toNat, year := y }
  else none

/-- The C library function `strstr`, as the offset of the first occurrence of
`needle` in `hay` (`none` for `NULL`). -/
def strstr : CStr → CStr → Option Nat
  | [], needle => if needle = [] then some 0 else none
  | c :: cs, needle =>
    if needle.isPrefixOf (c :: cs) then some 0
    else (strstr cs needle).map (· + 1)

/-! ## `gpapakey.c` -/

/-- `gpapa_key_new`: a zeroed `GpapaKey` whose `KeyID` is a copy of `keyID`. -/
def gpapa_key_new (keyID : CStr) : GpapaKey :=
  { KeyID := some keyID, LocalID := none, UserID := none, uids := [], subs := [],
    CreationDate := none, ExpirationDate := none, KeyTrust := NUL, OwnerTrust := NUL,
    bits := 0, algorithm := 0 }

/-! ## The field tokenizer shared by `extract_key` and `gpapa_extract_fingerprint` -/

/-- The text walked over by `while (*p && *p != ':') p++`: the field that starts at `p`. -/
def scanField : CStr → CStr
  | [] => []
  | c :: cs => if c = ':' then [] else c :: scanField cs

/-- Where `p` stands after `while (*p && *p != ':') p++`. -/
def afterField : CStr → CStr
  | [] => []
  | c :: cs => if c = ':' then c :: cs else afterField cs

/-- The step `if (*p == ':') { *p = 0; p++; }`. -/
def skipColon : CStr → CStr
  | [] => []
  | c :: cs => if c = ':' then cs else c :: cs

/-- The loop `while (*p) { field[i] = p; ...; i++; if (i >= MAX) break; }` started
at `p` with `i` fields already captured; the result lists the fields captured
from here on. The first argument bounds the number of iterations. -/
def tokenizeLoop (maxFields : Nat) : Nat → CStr → Nat → List CStr
  | 0, _, _ => []
  | _ + 1, [], _ => []
  | fuel + 1, c :: cs, i =>
    let fld := scanField (c :: cs)
    let p := skipColon (afterField (c :: cs))
    if i + 1 ≥ maxFields then [fld]
    else fld :: tokenizeLoop maxFields fuel p (i + 1)

/-- The array `field[0 .. fields-1]` once the tokenizer loop has run over `line`.
Every iteration consumes at least one character, so `line.length` iterations
are enough. -/
def tokenize (maxFields : Nat) (line : CStr) : List CStr :=
  tokenizeLoop maxFields line.length line 0

/-! ## `gpapa_extract_date` -/

/-- The step `if (*p) { *p = 0; p++; }`. -/
def skipByte : CStr → CStr
  | [] => []
  | _ :: cs => cs

/-- `gpapa_extract_date`. -/
def gpapa_extract_date : Option CStr → Option GDate
  | none => none
  | some buffer =>
    let year := buffer.takeWhile isdigit
    let p := skipByte (buffer.dropWhile isdigit)
    let month := p.takeWhile isdigit
    let day := skipByte (p.dropWhile isdigit)
    if year ≠ [] ∧ month ≠ [] ∧ day ≠ [] then
      g_date_new_dmy (atoi day) (atoi month) (atoi year)
    else none

/-! ## `extract_key` -/

/-- The escape token `\x3a` that stands for a colon inside a user ID. -/
def quotedColon : CStr := ['\\', 'x', '3', 'a']

/-- The loop `while ((quoted = strstr (key->UserID, "\\x3a")) != NULL) { ... }`:
the first occurrence of the token is overwritten by `':'` and the text behind it
is moved three places to the left; then the search starts over. The first
argument bounds the number of iterations. -/
def unquoteLoop : Nat → CStr → CStr
  | 0, s => s
  | fuel + 1, s =>
    match strstr s quotedColon with
    | none => s
    | some k => unquoteLoop fuel (s.take k ++ ':' :: s.drop (k + 4))

/-- The un-quoting of a user ID. Every iteration shortens the string by three
characters, so `s.length` iterations are enough. -/
def unquoteUserID (s : CStr) : CStr := unquoteLoop s.length s

/-- The message of the arity error. -/
def invalidFieldsMessage : String := "Invalid number of fields in GnuPG colon output"

/-- The callback invocation made on a line with fewer than 10 fields. -/
def invalidFieldsEvent : CallbackEvent :=
  { action := GpapaAction.GPAPA_ACTION_ERROR, message := invalidFieldsMessage }

/-- The identifier assignment of `extract_key`:
`if (field[4] == NULL || strlen (field[4]) <= 8) KeyID = NULL; else KeyID = xstrdup (field[4] + 8)`. -/
def shortKeyID (field4 : CStr) : Option CStr :=
  if field4.length ≤ 8 then none else some (field4.drop 8)

/-- The `else` branch of `extract_key`: the key built from the captured fields. -/
def keyFromFields (field : List CStr) : GpapaKey :=
  let key := gpapa_key_new (field.getD 7 [])
  { key with
    KeyTrust := firstChar (field.getD 1 [])
    bits := atoi (field.getD 2 [])
    algorithm := atoi (field.getD 3 [])
    KeyID := shortKeyID (field.getD 4 [])
    CreationDate := gpapa_extract_date (some (field.getD 5 []))
    ExpirationDate := gpapa_extract_date (some (field.getD 6 []))
    OwnerTrust := firstChar (field.getD 8 [])
    UserID := some (unquoteUserID (field.getD 9 [])) }

/-- `extract_key`: the key returned (`none` for `NULL`) and the callback
invocations made. -/
def extract_key (maxFields : Nat) (line : CStr) : Option GpapaKey × List CallbackEvent :=
  let field := tokenize maxFields line
  if field.length < 10 then (none, [invalidFieldsEvent])
  else (some (keyFromFields field), [])

/-! ## `gpapa_extract_fingerprint` -/

/-- The grouping loop `while (*r) { *q++ = *r++; c++; if (c < lim) { ... } }`: the
characters written from `r` on when `c` characters have been copied so far. A
space follows every `small`-th character and one more every `big`-th, as long
as the count stays below `lim`. -/
def groupLoop (lim small big : Nat) : CStr → Nat → CStr
  | [], _ => []
  | ch :: r, c =>
    ch :: ((if c + 1 < lim then
              (if (c + 1) % small = 0 then [' '] else [])
                ++ (if (c + 1) % big = 0 then [' '] else [])
            else [])
          ++ groupLoop lim small big r (c + 1))

/-- The string built from the raw fingerprint `fpraw` for `algorithm`. -/
def formatFingerprint (algorithm : Int) (fpraw : CStr) : CStr :=
  if algorithm = 1 then groupLoop 32 2 16 fpraw 0 else groupLoop 40 4 20 fpraw 0

/-- The size `strlen (fpraw) + 16 + 1` (respectively `+ 10 + 1`) of the buffer
allocated for the formatted fingerprint. -/
def fingerprintBufferSize (algorithm : Int) (fpraw : CStr) : Nat :=
  if algorithm = 1 then fpraw.length + 16 + 1 else fpraw.length + 10 + 1

/-- `gpapa_extract_fingerprint`: the string returned (`none` for `NULL`) and the
callback invocations made. -/
def gpapa_extract_fingerprint (maxFields : Nat) (line : CStr) (algorithm : Int) :
    Option CStr × List CallbackEvent :=
  let field := tokenize maxFields line
  if field.length < 10 then (none, [invalidFieldsEvent])
  else (some (formatFingerprint algorithm (field.getD 9 [])), [])

/-! ## `gpapa_http_quote` -/

/-- The value read by `*p` through a `const gchar *`: `gchar` is plain `char`,
whose signedness depends on the platform; where it is signed (`charSigned`) a
byte of 128 or more reads as a negative number. -/
def gcharValue (charSigned : Bool) (c : Char) : Int :=
  if charSigned = true ∧ 128 ≤ c.toNat then (c.toNat : Int) - 256 else (c.toNat : Int)

/-- The array `hexchr[] = "0123456789abcdef"`, without its terminator. -/
def hexchr : CStr := "0123456789abcdef".toList

/-- The read `hexchr[i]`: the terminator at index 16, `none` when the index lies
outside the 17 bytes of the array. -/
def hexchrAt (i : Int) : Option Char :=
  if 0 ≤ i ∧ i < 16 then hexchr.get? i.toNat
  else if i = 16 then some NUL
  else none

/-- The test `(*p >= 'A' && *p <= 'Z') || (*p >= 'a' && *p <= 'z') || (*p >= '0' && *p <= '9')`. -/
def quoteKeeps (v : Int) : Bool :=
  (decide (('A'.toNat : Int) ≤ v) && decide (v ≤ ('Z'.toNat : Int)))
    || (decide (('a'.toNat : Int) ≤ v) && decide (v ≤ ('z'.toNat : Int)))
    || (decide (('0'.toNat : Int) ≤ v) && decide (v ≤ ('9'.toNat : Int)))

/-- `gpapa_http_quote`: the quoted string, `none` when a read of `hexchr` falls
outside the array. The operators `/` and `%` of C truncate towards zero. -/
def gpapa_http_quote (charSigned : Bool) : CStr → Option CStr
  | [] => some []
  | c :: p =>
    if quoteKeeps (gcharValue charSigned c) = true then
      (gpapa_http_quote charSigned p).map (fun q => c :: q)
    else
      match hexchrAt ((gcharValue charSigned c).tdiv 16),
          hexchrAt ((gcharValue charSigned c).tmod 16),
          gpapa_http_quote charSigned p with
      | some hi, some lo, some q => some ('%' :: hi :: lo :: q)
      | _, _, _ => none

/-! ## The key rings: data -/

/-- The record `GpapaPublicKey`: a key (`NULL` on a malformed record) and its
formatted fingerprint. A pointer to a `GpapaKey` is modelled by the key it
points to. -/
structure GpapaPublicKey where
  key : Option GpapaKey
  fingerprint : Option CStr
  deriving DecidableEq

/-- The record `GpapaSecretKey`. -/
structure GpapaSecretKey where
  key : Option GpapaKey
  deriving DecidableEq

/-- The status code delivered with a line: the sentinel `NO_STATUS` marks an
ordinary data line, any other code a tool event. -/
inductive GpgStatusCode where
  | NO_STATUS
  | other (code : Nat)
  deriving DecidableEq

/-- One call of a line callback: `linecallback (line, data, status)`. -/
structure Delivery where
  line : Option CStr
  status : GpgStatusCode
  deriving DecidableEq

/-- The `static GpapaPublicKey *key` of `linecallback_refresh_pub`: `NULL`, a
pointer to an entry that has been released since, or a pointer to the entry
most recently appended to `PubRing` (its last element until the ring is
sorted). -/
inductive LastPubKey where
  | null
  | released
  | appended
  deriving DecidableEq

/-- The file-scope state of `gpapa.c`, together with the record of what the code
did to its collaborators: the argument vectors of the tool invocations made and
the invocations of the reporting callback, both in order. -/
structure GpapaState where
  PubRing : List GpapaPublicKey
  SecRing : List GpapaSecretKey
  pubring_initialized : Bool
  secring_initialized : Bool
  gpg_program : Option CStr
  lastPubKey : LastPubKey
  gnupgCalls : List (List String)
  events : List CallbackEvent
  deriving DecidableEq

/-- The state at program start. -/
def initialState : GpapaState :=
  { PubRing := [], SecRing := [], pubring_initialized := false, secring_initialized := false,
    gpg_program := none, lastPubKey := LastPubKey.null, gnupgCalls := [], events := [] }

/-- The collaborators of `gpapa.c` that are not part of the sources at hand: the
field bound of `gpapa.h`, what the tool delivers on its `n`-th invocation with a
given argument vector, what `gpapa_report_error_status` reports for a status
code, and the terminal signal of an invocation. -/
structure Gnupg where
  maxFields : Nat
  output : Nat → List String → List Delivery
  report_error_status : GpgStatusCode → List CallbackEvent
  finished : Nat → List String → List CallbackEvent

/-- Modelled from the spec: `gpapa_call_gnupg`, the subprocess adapter. Given an
argument vector and a per-line callback it invokes the tool, delivers every
output line with its status code to the callback, and finally delivers a
terminal signal through the reporting callback. -/
def gpapa_call_gnupg (env : Gnupg) (argv : List String)
    (linecallback : GpapaState → Delivery → GpapaState) (st : GpapaState) : GpapaState :=
  let n := st.gnupgCalls.length
  let st1 := (env.output n argv).foldl linecallback
    { st with gnupgCalls := st.gnupgCalls ++ [argv] }
  { st1 with events := st1.events ++ env.finished n argv }

/-! ## The key rings: sorting -/

/-- The C library function `tolower` in the "C" locale, on character codes. -/
def tolower (c : Char) : Nat :=
  if 65 ≤ c.toNat ∧ c.toNat ≤ 90 then c.toNat + 32 else c.toNat

/-- The C library function `strcasecmp`: the difference of the first two
characters that differ after conversion to lower case, 0 when there are none. -/
def strcasecmp : CStr → CStr → Int
  | [], [] => 0
  | [], b :: _ => - (tolower b : Int)
  | a :: _, [] => (tolower a : Int)
  | a :: s1, b :: s2 =>
    if tolower a = tolower b then strcasecmp s1 s2
    else (tolower a : Int) - (tolower b : Int)

/-- `compare_public_keys`. -/
def compare_public_keys (k1 k2 : GpapaPublicKey) : Int :=
  match k1.key, k2.key with
  | some key1, some key2 =>
    match key1.UserID, key2.UserID with
    | some u1, some u2 => strcasecmp u1 u2
    | _, _ => 0
  | _, _ => 0

/-- `compare_secret_keys`. -/
def compare_secret_keys (k1 k2 : GpapaSecretKey) : Int :=
  match k1.key, k2.key with
  | some key1, some key2 =>
    match key1.UserID, key2.UserID with
    | some u1, some u2 => strcasecmp u1 u2
    | _, _ => 0
  | _, _ => 0

/-- GLib's `g_list_sort_merge`: the element of the first list is taken unless
the comparison is positive. The first argument bounds the number of steps. -/
def g_list_sort_merge {α : Type} (compare_func : α → α → Int) :
    Nat → List α → List α → List α
  | 0, l1, l2 => l1 ++ l2
  | _ + 1, [], l2 => l2
  | _ + 1, a :: l1, [] => a :: l1
  | fuel + 1, a :: l1, b :: l2 =>
    if compare_func a b ≤ 0 then a :: g_list_sort_merge compare_func fuel l1 (b :: l2)
    else b :: g_list_sort_merge compare_func fuel (a :: l1) l2

/-- The recursion of GLib's `g_list_sort`: a list of two or more elements is cut
behind its first `n / 2` elements, both parts are sorted and then merged. The
first argument bounds the depth of the recursion. -/
def g_list_sort_real {α : Type} (compare_func : α → α → Int) : Nat → List α → List α
  | 0, list => list
  | fuel + 1, list =>
    if list.length < 2 then list
    else
      g_list_sort_merge compare_func list.length
        (g_list_sort_real compare_func fuel (list.take (list.length / 2)))
        (g_list_sort_real compare_func fuel (list.drop (list.length / 2)))

/-- GLib's `g_list_sort`, a merge sort. Every level of the recursion halves the
list, so a depth of `list.length` is enough. -/
def g_list_sort {α : Type} (list : List α) (compare_func : α → α → Int) : List α :=
  g_list_sort_real compare_func list.length list

/-! ## The key rings: refresh -/

/-- The marker `"pub:"` of a public-key record. -/
def pubMarker : CStr := "pub:".toList

/-- The marker `"fpr:"` of a fingerprint record. -/
def fprMarker : CStr := "fpr:".toList

/-- The marker `"sec"` of a secret-key record. -/
def secMarker : CStr := "sec".toList

/-- The argument vector of the public listing. -/
def listKeysArgv : List String := ["--list-keys", "--with-colons", "--with-fingerprint"]

/-- The argument vector of the secret listing. -/
def listSecretKeysArgv : List String := ["--list-secret-keys", "--with-colons"]

/-- What becomes of the static pointer of `linecallback_refresh_pub` when the
entries of the public ring are released. -/
def afterRelease : LastPubKey → LastPubKey
  | LastPubKey.null => LastPubKey.null
  | _ => LastPubKey.released

/-- `linecallback_refresh_pub`. A `"pub:"` line appends an entry; a `"fpr:"` line
sets the fingerprint of the entry the static pointer `key` points to when that
entry has a key. When the pointer is stale (the entry was released with an
earlier ring) the C code reads and writes released memory; the model then leaves
the ring as it is. -/
def linecallback_refresh_pub (env : Gnupg) (st : GpapaState) (d : Delivery) : GpapaState :=
  let st1 := { st with events := st.events ++ env.report_error_status d.status }
  match d.line with
  | none => st1
  | some line =>
    if d.status ≠ GpgStatusCode.NO_STATUS then st1
    else if pubMarker.isPrefixOf line = true then
      { st1 with
        PubRing := st1.PubRing ++
          [{ key := (extract_key env.maxFields line).1, fingerprint := none }]
        lastPubKey := LastPubKey.appended
        events := st1.events ++ (extract_key env.maxFields line).2 }
    else if fprMarker.isPrefixOf line = true then
      match st1.lastPubKey, st1.PubRing.getLast? with
      | LastPubKey.appended, some last =>
        match last.key with
        | some k =>
          { st1 with
            PubRing := st1.PubRing.dropLast ++
              [{ last with
                 fingerprint := (gpapa_extract_fingerprint env.maxFields line k.algorithm).1 }]
            events := st1.events
              ++ (gpapa_extract_fingerprint env.maxFields line k.algorithm).2 }
        | none => st1
      | _, _ => st1
    else st1

/-- The loop and the return of `gpapa_get_public_key_by_ID`:
`while (g && g->data && (p = g->data) != NULL && p->key && p->key->KeyID
&& strcmp (p->key->KeyID, keyID) != 0) g = g_list_next (g);` then
`if (g && p) return p; else return NULL;`. -/
def scanPublicRing (keyID : CStr) : List GpapaPublicKey → Option GpapaPublicKey
  | [] => none
  | p :: g =>
    match p.key with
    | none => some p
    | some key =>
      match key.KeyID with
      | none => some p
      | some id => if id ≠ keyID then scanPublicRing keyID g else some p

/-- The loop and the return of `gpapa_get_secret_key_by_ID`. -/
def scanSecretRing (keyID : CStr) : List GpapaSecretKey → Option GpapaSecretKey
  | [] => none
  | s :: g =>
    match s.key with
    | none => some s
    | some key =>
      match key.KeyID with
      | none => some s
      | some id => if id ≠ keyID then scanSecretRing keyID g else some s

/-- The key stored in the secret entry by `linecallback_refresh_sec`: the key
extracted from the line, replaced by the key of the public entry that
`gpapa_get_public_key_by_ID` returns when there is one. The call is made only
when `PubRing` is not `NULL`; `PubRing` is filled only by
`gpapa_refresh_public_keyring`, which sets `pubring_initialized` first, so the
lazy refresh inside `gpapa_get_public_key_by_ID` does not run here and the call
is its scan of the ring. -/
def secretEntryKey (PubRing : List GpapaPublicKey) (extracted : Option GpapaKey) :
    Option GpapaKey :=
  match extracted with
  | none => none
  | some key =>
    match key.KeyID with
    | none => some key
    | some id =>
      if PubRing ≠ [] then
        match scanPublicRing id PubRing with
        | some pubkey => pubkey.key
        | none => some key
      else some key

/-- `linecallback_refresh_sec`. -/
def linecallback_refresh_sec (env : Gnupg) (st : GpapaState) (d : Delivery) : GpapaState :=
  let st1 := { st with events := st.events ++ env.report_error_status d.status }
  match d.line with
  | none => st1
  | some line =>
    if d.status ≠ GpgStatusCode.NO_STATUS then st1
    else if secMarker.isPrefixOf line = true then
      { st1 with
        SecRing := st1.SecRing ++
          [{ key := secretEntryKey st1.PubRing (extract_key env.maxFields line).1 }]
        events := st1.events ++ (extract_key env.maxFields line).2 }
    else st1

/-- `gpapa_refresh_secret_keyring`. -/
def gpapa_refresh_secret_keyring (env : Gnupg) (st : GpapaState) : GpapaState :=
  let st1 := gpapa_call_gnupg env listSecretKeysArgv (linecallback_refresh_sec env)
    { st with secring_initialized := true, SecRing := [] }
  { st1 with SecRing := g_list_sort st1.SecRing compare_secret_keys }

/-- `gpapa_refresh_public_keyring`. -/
def gpapa_refresh_public_keyring (env : Gnupg) (st : GpapaState) : GpapaState :=
  let st1 := gpapa_call_gnupg env listKeysArgv (linecallback_refresh_pub env)
    { st with pubring_initialized := true, SecRing := [], PubRing := [],
              lastPubKey := afterRelease st.lastPubKey }
  gpapa_refresh_secret_keyring env
    { st1 with PubRing := g_list_sort st1.PubRing compare_public_keys }

/-! ## The key rings: queries -/

/-- GLib's `g_list_nth_data` called with a `gint`: the index is converted to
`guint`, so a negative one lies behind the end of any list. -/
def g_list_nth_data {α : Type} (list : List α) (n : Int) : Option α :=
  if n < 0 then none else list.get? n.toNat

/-- The lazy refresh at the head of every public query. -/
def ensurePublic (env : Gnupg) (st : GpapaState) : GpapaState :=
  if st.pubring_initialized = false then gpapa_refresh_public_keyring env st else st

/-- The lazy refresh at the head of every secret query. -/
def ensureSecret (env : Gnupg) (st : GpapaState) : GpapaState :=
  if st.secring_initialized = false then gpapa_refresh_secret_keyring env st else st

/-- `gpapa_get_public_key_count`. -/
def gpapa_get_public_key_count (env : Gnupg) (st : GpapaState) : GpapaState × Nat :=
  (ensurePublic env st, (ensurePublic env st).PubRing.length)

/-- `gpapa_get_public_key_by_index`. -/
def gpapa_get_public_key_by_index (env : Gnupg) (st : GpapaState) (idx : Int) :
    GpapaState × Option GpapaPublicKey :=
  (ensurePublic env st, g_list_nth_data (ensurePublic env st).PubRing idx)

/-- `gpapa_get_public_key_by_ID`. -/
def gpapa_get_public_key_by_ID (env : Gnupg) (st : GpapaState) (keyID : CStr) :
    GpapaState × Option GpapaPublicKey :=
  (ensurePublic env st, scanPublicRing keyID (ensurePublic env st).PubRing)

/-- `gpapa_get_secret_key_count`. -/
def gpapa_get_secret_key_count (env : Gnupg) (st : GpapaState) : GpapaState × Nat :=
  (ensureSecret env st, (ensureSecret env st).SecRing.length)

/-- `gpapa_get_secret_key_by_index`. -/
def gpapa_get_secret_key_by_index (env : Gnupg) (st : GpapaState) (idx : Int) :
    GpapaState × Option GpapaSecretKey :=
  (ensureSecret env st, g_list_nth_data (ensureSecret env st).SecRing idx)

/-- `gpapa_get_secret_key_by_ID`. -/
def gpapa_get_secret_key_by_ID (env : Gnupg) (st : GpapaState) (keyID : CStr) :
    GpapaState × Option GpapaSecretKey :=
  (ensureSecret env st, scanSecretRing keyID (ensureSecret env st).SecRing)

/-- `gpapa_init`. -/
def gpapa_init (st : GpapaState) (gpg : Option CStr) : GpapaState :=
  { st with gpg_program := some (gpg.getD "/usr/bin/gpg".toList) }

/-- `gpapa_fini`. -/
def gpapa_fini (st : GpapaState) : GpapaState :=
  { st with PubRing := [], SecRing := [], gpg_program := none,
            lastPubKey := afterRelease st.lastPubKey }

/-- The operations on the cache. -/
inductive CacheOp where
  | refresh_public
  | refresh_secret
  | public_count
  | public_by_index (idx : Int)
  | public_by_ID (keyID : CStr)
  | secret_count
  | secret_by_index (idx : Int)
  | secret_by_ID (keyID : CStr)
  | fini
  | init (gpg : Option CStr)

/-- The state after one operation. -/
def cacheStep (env : Gnupg) (st : GpapaState) : CacheOp → GpapaState
  | CacheOp.refresh_public => gpapa_refresh_public_keyring env st
  | CacheOp.refresh_secret => gpapa_refresh_secret_keyring env st
  | CacheOp.public_count => (gpapa_get_public_key_count env st).1
  | CacheOp.public_by_index idx => (gpapa_get_public_key_by_index env st idx).1
  | CacheOp.public_by_ID keyID => (gpapa_get_public_key_by_ID env st keyID).1
  | CacheOp.secret_count => (gpapa_get_secret_key_count env st).1
  | CacheOp.secret_by_index idx => (gpapa_get_secret_key_by_index env st idx).1
  | CacheOp.secret_by_ID keyID => (gpapa_get_secret_key_by_ID env st keyID).1
  | CacheOp.fini => gpapa_fini st
  | CacheOp.init gpg => gpapa_init st gpg

/-- The state after a sequence of operations. -/
def cacheRun (env : Gnupg) (st : GpapaState) (ops : List CacheOp) : GpapaState :=
  ops.foldl (cacheStep env) st

/-! ## `gpapa_dehtml` -/

/-- What a run of `gpapa_dehtml` does: the characters it stores through `q` in
front of the final terminator, and whether it moves `p` beyond the terminator of
the input, after which the loop goes on reading the memory behind the string. -/
structure DehtmlRun where
  text : CStr
  pastTerminator : Bool
  deriving DecidableEq

/-- Where `p` stands after `while (*p && *p != '>') p++`. -/
def afterTagScan : CStr → CStr
  | [] => []
  | c :: cs => if c = '>' then c :: cs else afterTagScan cs

/-- The loop `while (*p) { if (*p == '<') { ...; p++; } else *q++ = *p++; }`. On
a `'<'` the inner scan stops at the next `'>'` or at the terminator and `p++`
steps over whichever it is; behind the terminator the contents of memory are
not known, so the run is cut there. The first argument bounds the number of
iterations. -/
def dehtmlLoop : Nat → CStr → DehtmlRun
  | 0, _ => { text := [], pastTerminator := false }
  | _ + 1, [] => { text := [], pastTerminator := false }
  | fuel + 1, c :: cs =>
    if c = '<' then
      match afterTagScan (c :: cs) with
      | [] => { text := [], pastTerminator := true }
      | _ :: rest => dehtmlLoop fuel rest
    else
      { text := c :: (dehtmlLoop fuel cs).text
        pastTerminator := (dehtmlLoop fuel cs).pastTerminator }

/-- The run of `gpapa_dehtml` on `p`. Every iteration consumes at least one
character, so `p.length` iterations are enough. -/
def dehtmlRun (p : CStr) : DehtmlRun := dehtmlLoop p.length p

/-- `gpapa_dehtml`: the string built in `result`. -/
def gpapa_dehtml (p : CStr) : CStr := (dehtmlRun p).text

/-- The size `strlen (p)` of the buffer allocated for the result. -/
def dehtmlBufferSize (p : CStr) : Nat := p.length

/-- The number of bytes `gpapa_dehtml` stores into `result`: the text and the
terminator written by `*q = 0`. -/
def dehtmlBytesStored (p : CStr) : Nat := (gpapa_dehtml p).length + 1

/-- Whether a run of `gpapa_dehtml` on `p` stays inside its two buffers: `p` is
never moved beyond the terminator of the input, and the bytes stored fit the
`strlen (p)` bytes allocated for the result. -/
def dehtmlInBounds (p : CStr) : Bool :=
  !(dehtmlRun p).pastTerminator && decide (dehtmlBytesStored p ≤ dehtmlBufferSize p)

/-! ## The keyserver client: error reports and search -/

/-- Modelled from the spec: `HKPERR_GENERAL` of `keyserver.h`, the code of table
entry 1, the generic error. -/
def HKPERR_GENERAL : Int := 1

/-- Modelled from the spec: `HKPERR_RECVKEY` of `keyserver.h`, the first of the
two codes whose message interpolates the diagnostic of the server. -/
def HKPERR_RECVKEY : Int := 2

/-- Modelled from the spec: `HKPERR_SENDKEY` of `keyserver.h`, the second of the
two codes whose message interpolates the diagnostic of the server. -/
def HKPERR_SENDKEY : Int := 3

/-- The table `hkp_errtypestr`, in the untranslated locale. -/
def hkp_errtypestr : List String :=
  [ "General error",
    "The keyserver returned an error message:\n\n%s",
    "The keyserver returned an error message:\n\n%s",
    "Keyserver timeout",
    "Error initializing network",
    "Error resolving host name",
    "Socket error",
    "Error while connecting to keyserver" ]

/-- The read `hkp_errtypestr[i]`: `none` when `i` falls outside the array. -/
def hkpErrtypestrAt (i : Int) : Option String :=
  if 0 ≤ i then hkp_errtypestr.get? i.toNat else none

/-- `g_strdup_printf (format, arg)` for a format whose only conversion is one
`%s`: the format with its first `%s` replaced by `arg`. -/
def g_strdup_printf : CStr → CStr → CStr
  | [], _ => []
  | c :: rest, arg =>
    if c = '%' ∧ rest.head? = some 's' then arg ++ rest.tail
    else c :: g_strdup_printf rest arg

/-- `gpapa_report_hkp_error`: the callback invocations made for the code `rc`
while `kserver_strerror ()` returns the given text. The result is `none` when
the behaviour of the call is not determined by the source: when the call of
`gpapa_dehtml` leaves one of its buffers, or when the read of `hkp_errtypestr`
falls outside the array. The condition of the first `if` is the one of the
source, `rc < 1 && rc > 8`. -/
def gpapa_report_hkp_error (rc : Int) (kserver_strerror : CStr) : Option (List CallbackEvent) :=
  let rc1 := if rc < 1 ∧ rc > 8 then HKPERR_GENERAL else rc
  if rc1 = HKPERR_RECVKEY ∨ rc1 = HKPERR_SENDKEY then
    if dehtmlInBounds kserver_strerror = true then
      (hkpErrtypestrAt (rc1 - 1)).map (fun format =>
        [{ action := GpapaAction.GPAPA_ACTION_ERROR
           message :=
             String.mk (g_strdup_printf format.toList (gpapa_dehtml kserver_strerror)) }])
    else none
  else
    (hkpErrtypestrAt (rc1 - 1)).map (fun text =>
      [{ action := GpapaAction.GPAPA_ACTION_ERROR, message := text }])

/-- The record `keyserver_key` as far as the search reads it. -/
structure keyserver_key where
  keyid : CStr
  uid : CStr
  deriving DecidableEq

/-- One call of `kserver_search`: the status it returns and the record it leaves
in `key_buffer`. -/
structure SearchPull where
  status : Int
  key_buffer : keyserver_key
  deriving DecidableEq

/-- What a search that returns has done: the list it returns, the number of
calls of `kserver_search` it made, and the callback invocations of its error
report (`none` when `gpapa_report_hkp_error` gives `none`). -/
structure SearchResult where
  keys : List GpapaKey
  pulls : Nat
  report : Option (List CallbackEvent)
  deriving DecidableEq

/-- The loop `while ((rc = kserver_search (conn_fd, &key_buffer)) == 0)` and the
statements behind it, over the results the server gives to the successive
calls. `none`: every scripted call returned 0, the loop has not ended. -/
def searchLoop (kserver_strerror : CStr) : List SearchPull → List GpapaKey → Nat →
    Option SearchResult
  | [], _, _ => none
  | pull :: rest, g, n =>
    if pull.status = 0 then
      searchLoop kserver_strerror rest
        (if pull.key_buffer.keyid.head? ≠ none then
          g ++ [{ gpapa_key_new pull.key_buffer.keyid with UserID := some pull.key_buffer.uid }]
         else g)
        (n + 1)
    else
      some { keys := g, pulls := n + 1
             report := if pull.status ≠ 1 then gpapa_report_hkp_error pull.status kserver_strerror
                       else some [] }

/-- `gpapa_search_public_keys_on_server`. `initStatus` is the result of
`kserver_search_init`, the only reader of the quoted `keyID`; `pulls` holds the
results of the successive calls of `kserver_search`. -/
def gpapa_search_public_keys_on_server (ServerName : Option CStr) (initStatus : Int)
    (pulls : List SearchPull) (kserver_strerror : CStr) : Option SearchResult :=
  match ServerName with
  | none => some { keys := [], pulls := 0, report := some [] }
  | some _ =>
    if initStatus ≠ 0 then
      some { keys := [], pulls := 0, report := gpapa_report_hkp_error initStatus kserver_strerror }
    else searchLoop kserver_strerror pulls [] 0

/-! ## Specification-side definitions -/

/-- The `':'`-separated fields of a line: the pieces between consecutive colons,
so that a line with `n` colons has `n + 1` fields. -/
def colonFields : CStr → List CStr
  | [] => [[]]
  | c :: cs =>
    if c = ':' then [] :: colonFields cs
    else
      match colonFields cs with
      | [] => [[c]]
      | f :: fs => (c :: f) :: fs

/-- The fields of a line that carry a record: its `':'`-separated fields, an
empty final field (a line that ends in a colon, or the empty line) left out. -/
def recordFields (line : CStr) : List CStr :=
  if (colonFields line).getLast? = some [] then (colonFields line).dropLast
  else colonFields line

/-- The decimal value of a digit string. -/
def decimalValue (s : CStr) : Nat :=
  s.foldl (fun acc c => 10 * acc + (c.toNat - '0'.toNat)) 0

/-- The trailing 8 characters of a string that has at least 8. -/
def trailing8 (s : CStr) : CStr := s.drop (s.length - 8)

/-- One left-to-right pass over a user ID: wherever the escape token `\x3a`
starts, a single `':'` is written and the pass goes on behind the token; any
other character is kept. -/
def unescapeColons : CStr → CStr
  | [] => []
  | c :: cs =>
    if quotedColon.isPrefixOf (c :: cs) then
      match cs with
      | _ :: _ :: _ :: rest => ':' :: unescapeColons rest
      | _ => [':']
    else c :: unescapeColons cs

/-- A hexadecimal digit, the alphabet of a raw fingerprint. -/
def isxdigit (c : Char) : Bool :=
  isdigit c || (decide ('a'.toNat ≤ c.toNat) && decide (c.toNat ≤ 'f'.toNat))
    || (decide ('A'.toNat ≤ c.toNat) && decide (c.toNat ≤ 'F'.toNat))

/-- The consecutive 2-character groups of a string. -/
def groups2 : CStr → List CStr
  | a :: b :: r => [a, b] :: groups2 r
  | _ => []

/-- The consecutive 4-character groups of a string. -/
def groups4 : CStr → List CStr
  | a :: b :: c :: d :: r => [a, b, c, d] :: groups4 r
  | _ => []

/-- The display form of a 32-character fingerprint: its 2-character groups with
a single space between neighbours, a double space between the 16th and the 17th
character, nothing in front and nothing behind. -/
def rsaGrouping (f : CStr) : CStr :=
  List.intercalate [' '] (groups2 (f.take 16)) ++ [' ', ' ']
    ++ List.intercalate [' '] (groups2 (f.drop 16))

/-- The display form of a 40-character fingerprint: its 4-character groups with
a single space between neighbours, a double space between the 20th and the 21st
character, nothing in front and nothing behind. -/
def dsaGrouping (f : CStr) : CStr :=
  List.intercalate [' '] (groups4 (f.take 20)) ++ [' ', ' ']
    ++ List.intercalate [' '] (groups4 (f.drop 20))

/-- Whether a year of the Gregorian calendar is a leap year. -/
def isLeapYear (y : Nat) : Bool :=
  decide (y % 4 = 0 ∧ y % 100 ≠ 0 ∨ y % 400 = 0)

/-- The number of days of month `m` of year `y` (0 when `m` is no month). -/
def daysInMonth (y m : Nat) : Nat :=
  if m = 2 then (if isLeapYear y then 29 else 28)
  else if m = 4 ∨ m = 6 ∨ m = 9 ∨ m = 11 then 30
  else if 1 ≤ m ∧ m ≤ 12 then 31
  else 0

/-- A valid calendar date: year at least 1, month 1 to 12, day within the month. -/
def validCalendarDate (d m y : Nat) : Bool :=
  decide (1 ≤ y ∧ 1 ≤ m ∧ m ≤ 12 ∧ 1 ≤ d ∧ d ≤ daysInMonth y m)

/-- The year component of `gpapa_extract_date`: the leading digit run. -/
def yearComponent (buffer : CStr) : CStr := buffer.takeWhile isdigit

/-- The month component of `gpapa_extract_date`: the digit run behind the byte
that ends the year. -/
def monthComponent (buffer : CStr) : CStr :=
  (skipByte (buffer.dropWhile isdigit)).takeWhile isdigit

/-- The day component of `gpapa_extract_date`: the text behind the byte that ends
the month. -/
def dayComponent (buffer : CStr) : CStr :=
  skipByte ((skipByte (buffer.dropWhile isdigit)).dropWhile isdigit)

/-- A byte in `[A-Za-z0-9]`. -/
def isAsciiAlnum (c : Char) : Bool :=
  (decide (65 ≤ c.toNat) && decide (c.toNat ≤ 90))
    || (decide (97 ≤ c.toNat) && decide (c.toNat ≤ 122))
    || (decide (48 ≤ c.toNat) && decide (c.toNat ≤ 57))

/-- The percent-encoding of one byte: the byte itself when it lies in
`[A-Za-z0-9]`, otherwise `'%'` and the two hexadecimal digits of its value,
high nibble first. -/
def percentEncodeByte (c : Char) : CStr :=
  if isAsciiAlnum c = true then [c]
  else ['%', Nat.digitChar (c.toNat / 16), Nat.digitChar (c.toNat % 16)]

/-- The percent-encoding of a byte string. -/
def percentEncode (s : CStr) : CStr := (s.map percentEncodeByte).flatten

/-- The user ID an entry of the public ring carries, if any. -/
def userIDOf (e : GpapaPublicKey) : Option CStr :=
  match e.key with
  | some key => key.UserID
  | none => none

/-- The short ID an entry of the public ring carries, if any. -/
def shortIDOf (e : GpapaPublicKey) : Option CStr :=
  match e.key with
  | some key => key.KeyID
  | none => none

/-- The short ID an entry of the secret ring carries, if any. -/
def secretShortIDOf (e : GpapaSecretKey) : Option CStr :=
  match e.key with
  | some key => key.KeyID
  | none => none

/-- The public ring as the line callback has built it, in the order of
delivery, before it is sorted. -/
def deliveredPublicRing (env : Gnupg) (st : GpapaState) : List GpapaPublicKey :=
  (gpapa_call_gnupg env listKeysArgv (linecallback_refresh_pub env)
    { st with pubring_initialized := true, SecRing := [], PubRing := [],
              lastPubKey := afterRelease st.lastPubKey }).PubRing

/-- The state in which `gpapa_refresh_public_keyring` starts the secret refresh:
the public ring rebuilt and sorted, the secret ring empty. -/
def afterPublicListing (env : Gnupg) (st : GpapaState) : GpapaState :=
  let st1 := gpapa_call_gnupg env listKeysArgv (linecallback_refresh_pub env)
    { st with pubring_initialized := true, SecRing := [], PubRing := [],
              lastPubKey := afterRelease st.lastPubKey }
  { st1 with PubRing := g_list_sort st1.PubRing compare_public_keys }

/-- A tool that delivers the given lines as ordinary data lines, the first list
on a public listing and the second on a secret listing, and reports nothing. -/
def scriptedGnupg (maxFields : Nat) (pub sec : List CStr) : Gnupg :=
  { maxFields := maxFields
    output := fun _ argv =>
      if argv = listKeysArgv then
        pub.map (fun l => { line := some l, status := GpgStatusCode.NO_STATUS })
      else if argv = listSecretKeysArgv then
        sec.map (fun l => { line := some l, status := GpgStatusCode.NO_STATUS })
      else []
    report_error_status := fun _ => []
    finished := fun _ _ => [] }

/-- The queries on the public ring: count, by index, by ID. -/
def isPublicQuery : CacheOp → Bool
  | CacheOp.public_count => true
  | CacheOp.public_by_index _ => true
  | CacheOp.public_by_ID _ => true
  | _ => false

/-- The queries on the secret ring: count, by index, by ID. -/
def isSecretQuery : CacheOp → Bool
  | CacheOp.secret_count => true
  | CacheOp.secret_by_index _ => true
  | CacheOp.secret_by_ID _ => true
  | _ => false

/-- One pass over a fragment that is either outside (`false`) or inside (`true`)
a span: outside, a `'<'` opens a span and any other character is kept; inside,
a `'>'` closes the span and every character is dropped. -/
def stripSpans : Bool → CStr → CStr
  | _, [] => []
  | false, c :: cs => if c = '<' then stripSpans true cs else c :: stripSpans false cs
  | true, c :: cs => if c = '>' then stripSpans false cs else stripSpans true cs

/-- The fragment with every span from a `'<'` through the next `'>'` removed. -/
def stripTags (p : CStr) : CStr := stripSpans false p

/-- Every `'<'` of the fragment is followed somewhere later by a `'>'`. -/
def tagsClosed : CStr → Bool
  | [] => true
  | c :: cs => (if c = '<' then decide ('>' ∈ cs) else true) && tagsClosed cs

/-- Modelled from the spec: the minimal Key of a search record, identifier and
user-ID from the record and every other field empty. -/
def minimalKey (r : keyserver_key) : GpapaKey :=
  { KeyID := some r.keyid, LocalID := none, UserID := some r.uid, uids := [], subs := [],
    CreationDate := none, ExpirationDate := none, KeyTrust := NUL, OwnerTrust := NUL,
    bits := 0, algorithm := 0 }

/-- The pulls of a server that delivers the given records with status 0. -/
def recordPulls (recs : List keyserver_key) : List SearchPull :=
  recs.map (fun r => { status := 0, key_buffer := r })

/-- The fixed part of the message of the codes 2 and 3. -/
def keyserverMessageHead : CStr := "The keyserver returned an error message:\n\n".toList

theorem scanField_append_afterField (p : CStr) : scanField p ++ afterField p = p := by
  induction p with
  | nil => rfl
  | cons c cs ih =>
    by_cases h : c = ':'
    · simp [scanField, afterField, h]
    · simp [scanField, afterField, h, ih]

theorem afterField_length_le (p : CStr) : (afterField p).length ≤ p.length := by
  induction p with
  | nil => simp [afterField]
  | cons c cs ih =>
    by_cases h : c = ':'
    · simp [afterField, h]
    · simp only [afterField, h, if_false, List.length_cons]
      omega

theorem afterField_head (p : CStr) (c : Char) (r : CStr) (h : afterField p = c :: r) :
    c = ':' := by
  induction p with
  | nil => simp [afterField] at h
  | cons d ds ih =>
    by_cases hd : d = ':'
    · simp only [afterField, hd, if_true, List.cons.injEq] at h
      exact h.1.symm
    · simp only [afterField, hd, if_false] at h
      exact ih h

theorem scanField_eq_self (p : CStr) (h : afterField p = []) : scanField p = p := by
  have := scanField_append_afterField p
  rw [h, List.append_nil] at this
  exact this

theorem colonFields_ne_nil (p : CStr) : colonFields p ≠ [] := by
  cases p with
  | nil => simp [colonFields]
  | cons c cs =>
    by_cases h : c = ':'
    · simp [colonFields, h]
    · simp only [colonFields, h, if_false]
      split <;> simp

theorem colonFields_of_afterField_nil (p : CStr) (h : afterField p = []) :
    colonFields p = [scanField p] := by
  induction p with
  | nil => rfl
  | cons c cs ih =>
    by_cases hc : c = ':'
    · simp [afterField, hc] at h
    · simp only [afterField, hc, if_false] at h
      simp [colonFields, scanField, hc, ih h]

theorem colonFields_of_afterField_cons (p : CStr) (c : Char) (r : CStr)
    (h : afterField p = c :: r) : colonFields p = scanField p :: colonFields r := by
  induction p with
  | nil => simp [afterField] at h
  | cons d ds ih =>
    by_cases hd : d = ':'
    · simp only [afterField, hd, if_true, List.cons.injEq] at h
      simp [colonFields, scanField, hd, h.2]
    · simp only [afterField, hd, if_false] at h
      simp [colonFields, scanField, hd, ih h]

theorem recordFields_nil : recordFields [] = [] := by
  simp [recordFields, colonFields]

theorem recordFields_of_afterField_nil (p : CStr) (hp : p ≠ []) (h : afterField p = []) :
    recordFields p = [scanField p] := by
  have hs : scanField p ≠ [] := by rw [scanField_eq_self p h]; exact hp
  simp [recordFields, colonFields_of_afterField_nil p h, hs]

theorem recordFields_of_afterField_cons (p : CStr) (c : Char) (r : CStr)
    (h : afterField p = c :: r) : recordFields p = scanField p :: recordFields r := by
  have hne := colonFields_ne_nil r
  simp only [recordFields, colonFields_of_afterField_cons p c r h]
  obtain ⟨f, fs, hfs⟩ := List.exists_cons_of_ne_nil hne
  rw [hfs, List.getLast?_cons_cons]
  by_cases hl : (f :: fs).getLast? = some []
  · simp only [hl, if_true]
    exact List.dropLast_cons_of_ne_nil (by simp)
  · simp [hl]

theorem tokenizeLoop_nil (maxFields fuel i : Nat) : tokenizeLoop maxFields fuel [] i = [] := by
  cases fuel <;> rfl

theorem tokenizeLoop_eq (maxFields : Nat) :
    ∀ (fuel : Nat) (p : CStr) (i : Nat), p.length ≤ fuel → i < maxFields →
      tokenizeLoop maxFields fuel p i = (recordFields p).take (maxFields - i) := by
  intro fuel
  induction fuel with
  | zero =>
    intro p i hp _
    have : p = [] := List.length_eq_zero.mp (Nat.le_zero.mp hp)
    subst this
    simp [tokenizeLoop, recordFields_nil]
  | succ fuel ih =>
    intro p i hp hi
    cases p with
    | nil => simp [tokenizeLoop, recordFields_nil]
    | cons c cs =>
      have hlen := afterField_length_le (c :: cs)
      have happ := scanField_append_afterField (c :: cs)
      cases hr : afterField (c :: cs) with
      | nil =>
        rw [recordFields_of_afterField_nil (c :: cs) (by simp) hr]
        have h1 : maxFields - i = (maxFields - i - 1) + 1 := by omega
        rw [h1, List.take_succ_cons, List.take_nil]
        simp only [tokenizeLoop, hr, skipColon, tokenizeLoop_nil]
        split <;> rfl
      | cons d r =>
        have hd := afterField_head (c :: cs) d r hr
        subst hd
        rw [recordFields_of_afterField_cons (c :: cs) ':' r hr]
        have h1 : maxFields - i = (maxFields - i - 1) + 1 := by omega
        rw [h1, List.take_succ_cons]
        simp only [tokenizeLoop, hr, skipColon, if_true]
        by_cases hb : i + 1 ≥ maxFields
        · have h0 : maxFields - i - 1 = 0 := by omega
          simp [hb, h0]
        · have hrl : r.length ≤ fuel := by
            have h2 : (scanField (c :: cs) ++ ':' :: r).length = (c :: cs).length := by
              rw [← hr, happ]
            simp only [List.length_append, List.length_cons] at h2 hp
            omega
          rw [if_neg hb, ih r (i + 1) hrl (by omega)]
          have h3 : maxFields - (i + 1) = maxFields - i - 1 := by omega
          rw [h3]

/-- The tokenizer captures the record fields of the line, at most `maxFields` of them. -/
theorem tokenize_eq (maxFields : Nat) (line : CStr) (h : 1 ≤ maxFields) :
    tokenize maxFields line = (recordFields line).take maxFields := by
  have := tokenizeLoop_eq maxFields line.length line 0 (Nat.le_refl _) (by omega)
  simpa [tokenize] using this


theorem getD_dropLast_of_getLast? {α : Type} (l : List α) (d : α) (k : Nat)
    (h : l.getLast? = some d) : l.dropLast.getD k d = l.getD k d := by
  have hl : l = l.dropLast ++ [d] := by
    have := List.dropLast_append_getLast? d (by simpa using h)
    exact this.symm
  by_cases hk : k < l.dropLast.length
  · conv_rhs => rw [hl]
    rw [List.getD_append _ _ _ _ hk]
  · have hk2 : l.dropLast.length ≤ k := Nat.le_of_not_lt hk
    rw [List.getD_eq_default _ _ hk2]
    conv_rhs => rw [hl]
    rw [List.getD_append_right _ _ _ _ hk2]
    cases hm : k - l.dropLast.length with
    | zero => rfl
    | succ m => rfl

theorem recordFields_getD (line : CStr) (k : Nat) :
    (recordFields line).getD k [] = (colonFields line).getD k [] := by
  unfold recordFields
  split
  · next h => exact getD_dropLast_of_getLast? _ _ _ h
  · rfl

theorem recordFields_length_le (line : CStr) :
    (recordFields line).length ≤ (colonFields line).length := by
  unfold recordFields
  split
  · simp
  · exact Nat.le_refl _

theorem tokenize_length (maxFields : Nat) (line : CStr) (h : 1 ≤ maxFields) :
    (tokenize maxFields line).length = min maxFields (recordFields line).length := by
  rw [tokenize_eq maxFields line h, List.length_take]

theorem tokenize_getD (maxFields : Nat) (line : CStr) (k : Nat) (h : 1 ≤ maxFields)
    (hk : k < maxFields) :
    (tokenize maxFields line).getD k [] = (colonFields line).getD k [] := by
  rw [tokenize_eq maxFields line h, ← recordFields_getD]
  simp only [List.getD_eq_getElem?_getD, List.getElem?_take, hk, if_true]

theorem keyFromFields_congr (f g : List CStr)
    (h : ∀ k, k < 10 → f.getD k [] = g.getD k []) : keyFromFields f = keyFromFields g := by
  simp only [keyFromFields, h 1 (by decide), h 2 (by decide), h 3 (by decide),
    h 4 (by decide), h 5 (by decide), h 6 (by decide), h 7 (by decide), h 8 (by decide),
    h 9 (by decide)]

/-- What `extract_key` returns, in terms of the `':'`-separated fields of the line. -/
theorem extract_key_eq (maxFields : Nat) (line : CStr) (h : 10 ≤ maxFields) :
    extract_key maxFields line =
      if (recordFields line).length < 10 then (none, [invalidFieldsEvent])
      else (some (keyFromFields (colonFields line)), []) := by
  have hlen := tokenize_length maxFields line (by omega)
  simp only [extract_key]
  by_cases hr : (recordFields line).length < 10
  · have : (tokenize maxFields line).length < 10 := by rw [hlen]; omega
    simp [hr, this]
  · have : ¬ (tokenize maxFields line).length < 10 := by rw [hlen]; omega
    rw [if_neg hr, if_neg this]
    congr 2
    apply keyFromFields_congr
    intro k hk
    exact tokenize_getD maxFields line k (by omega) (by omega)

/-- What `gpapa_extract_fingerprint` returns, in terms of the `':'`-separated fields. -/
theorem gpapa_extract_fingerprint_eq (maxFields : Nat) (line : CStr) (algorithm : Int)
    (h : 10 ≤ maxFields) :
    gpapa_extract_fingerprint maxFields line algorithm =
      if (recordFields line).length < 10 then (none, [invalidFieldsEvent])
      else (some (formatFingerprint algorithm ((colonFields line).getD 9 [])), []) := by
  have hlen := tokenize_length maxFields line (by omega)
  simp only [gpapa_extract_fingerprint]
  by_cases hr : (recordFields line).length < 10
  · have : (tokenize maxFields line).length < 10 := by rw [hlen]; omega
    simp [hr, this]
  · have : ¬ (tokenize maxFields line).length < 10 := by rw [hlen]; omega
    rw [if_neg hr, if_neg this, tokenize_getD maxFields line 9 (by omega) (by omega)]


theorem isdigit_iff (c : Char) : isdigit c = true ↔ 48 ≤ c.toNat ∧ c.toNat ≤ 57 := by
  have h0 : '0'.toNat = 48 := rfl
  have h9 : '9'.toNat = 57 := rfl
  simp [isdigit, h0, h9]

theorem isspace_of_isdigit (c : Char) (h : isdigit c = true) : isspace c = false := by
  rw [isdigit_iff] at h
  have hne : c ≠ ' ' := by
    rintro rfl
    have : ' '.toNat = 32 := rfl
    omega
  simp only [isspace, Bool.or_eq_false_iff, Bool.and_eq_false_iff, decide_eq_false_iff_not]
  refine ⟨hne, ?_⟩
  right
  omega

theorem ne_sign_of_isdigit (c : Char) (h : isdigit c = true) : c ≠ '-' ∧ c ≠ '+' := by
  rw [isdigit_iff] at h
  constructor
  · rintro rfl
    have : '-'.toNat = 45 := rfl
    omega
  · rintro rfl
    have : '+'.toNat = 43 := rfl
    omega

theorem atoiDigits_eq_foldl (s : CStr) (h : ∀ c ∈ s, isdigit c = true) (acc : Nat) :
    atoiDigits s acc = s.foldl (fun a c => 10 * a + (c.toNat - '0'.toNat)) acc := by
  induction s generalizing acc with
  | nil => rfl
  | cons c cs ih =>
    have hc : isdigit c = true := h c (by simp)
    simp only [atoiDigits, hc, if_true, List.foldl_cons]
    exact ih (fun d hd => h d (by simp [hd])) _

/-- On a string of decimal digits `atoi` returns its decimal value. -/
theorem atoi_of_digits (s : CStr) (h : ∀ c ∈ s, isdigit c = true) :
    atoi s = (decimalValue s : Int) := by
  cases s with
  | nil => rfl
  | cons c cs =>
    have hc : isdigit c = true := h c (by simp)
    have hsp := isspace_of_isdigit c hc
    have hsg := ne_sign_of_isdigit c hc
    have hd : (c :: cs).dropWhile isspace = c :: cs := by
      simp [List.dropWhile, hsp]
    simp only [atoi, hd, hsg.1, hsg.2, if_false, decimalValue]
    rw [atoiDigits_eq_foldl (c :: cs) h 0]

/-! ## The arity check (C1) -/

/-- C1, as amended. For a field bound of at least 10, `extract_key` and
`gpapa_extract_fingerprint` return a result exactly when the line has at least
10 `':'`-separated fields, an empty final field not being counted; on fewer
fields they return nothing and invoke the reporting callback exactly once, with
the error action and the message "Invalid number of fields in GnuPG colon
output"; on a result the callback is not invoked. -/
theorem extract_key_arity (maxFields : Nat) (line : CStr) (algorithm : Int)
    (h : 10 ≤ maxFields) :
    ((recordFields line).length =
        if (colonFields line).getLast? = some [] then (colonFields line).length - 1
        else (colonFields line).length) ∧
    ((extract_key maxFields line).1.isSome = true ↔ 10 ≤ (recordFields line).length) ∧
    ((gpapa_extract_fingerprint maxFields line algorithm).1.isSome = true ↔
        10 ≤ (recordFields line).length) ∧
    ((recordFields line).length < 10 →
        extract_key maxFields line =
          (none, [{ action := GpapaAction.GPAPA_ACTION_ERROR,
                    message := "Invalid number of fields in GnuPG colon output" }]) ∧
        gpapa_extract_fingerprint maxFields line algorithm =
          (none, [{ action := GpapaAction.GPAPA_ACTION_ERROR,
                    message := "Invalid number of fields in GnuPG colon output" }])) ∧
    (10 ≤ (recordFields line).length →
        (extract_key maxFields line).2 = [] ∧
        (gpapa_extract_fingerprint maxFields line algorithm).2 = []) := by
  have hk := extract_key_eq maxFields line h
  have hf := gpapa_extract_fingerprint_eq maxFields line algorithm h
  refine ⟨?_, ?_, ?_, ?_, ?_⟩
  · unfold recordFields
    split <;> simp
  · rw [hk]
    by_cases hr : (recordFields line).length < 10
    · simp only [hr, if_true, Option.isSome_none]
      constructor
      · intro h'; cases h'
      · intro h'; omega
    · simp only [hr, if_false, Option.isSome_some, true_iff]
      omega
  · rw [hf]
    by_cases hr : (recordFields line).length < 10
    · simp only [hr, if_true, Option.isSome_none]
      constructor
      · intro h'; cases h'
      · intro h'; omega
    · simp only [hr, if_false, Option.isSome_some, true_iff]
      omega
  · intro hr
    rw [hk, hf, if_pos hr, if_pos hr]
    exact ⟨rfl, rfl⟩
  · intro hr
    have hr' : ¬ (recordFields line).length < 10 := by omega
    rw [hk, hf, if_neg hr', if_neg hr']
    exact ⟨rfl, rfl⟩

/-- The amended C1 at a `pub` record of twelve fields, with the bound 20. -/
theorem extract_key_arity_witness :
    10 ≤ 20 ∧
    10 ≤ (recordFields
      "pub:u:1024:17:5DE249965B0358A2:1999-03-15:2006-02-04:59:f:Alice::".toList).length ∧
    (extract_key 20
      "pub:u:1024:17:5DE249965B0358A2:1999-03-15:2006-02-04:59:f:Alice::".toList).1.isSome
        = true :=
  ⟨by decide, by decide,
    (extract_key_arity 20
      "pub:u:1024:17:5DE249965B0358A2:1999-03-15:2006-02-04:59:f:Alice::".toList 1
      (by decide)).2.1.mpr (by decide)⟩

/-- C1 as stated fails: a record of 10 `':'`-separated fields whose tenth field is
empty is rejected by both `extract_key` and `gpapa_extract_fingerprint`. -/
theorem extract_key_arity_counterexample :
    (colonFields "pub:u:1024:17:5DE249965B0358A2:1999-03-15:2006-02-04:59:f:".toList).length = 10 ∧
    (extract_key 10 "pub:u:1024:17:5DE249965B0358A2:1999-03-15:2006-02-04:59:f:".toList).1
        = none ∧
    (gpapa_extract_fingerprint 10
        "pub:u:1024:17:5DE249965B0358A2:1999-03-15:2006-02-04:59:f:".toList 17).1 = none := by
  decide


/-! ## The members of the key built (C2, C3, C4) -/

/-- A key is built exactly on the lines with 10 record fields, and it is the key
made of the `':'`-separated fields of the line. -/
theorem extract_key_some_iff (maxFields : Nat) (line : CStr) (key : GpapaKey)
    (h : 10 ≤ maxFields) :
    (extract_key maxFields line).1 = some key ↔
      10 ≤ (recordFields line).length ∧ key = keyFromFields (colonFields line) := by
  rw [extract_key_eq maxFields line h]
  by_cases hr : (recordFields line).length < 10
  · simp only [hr, if_true]
    constructor
    · intro h'; cases h'
    · intro h'; omega
  · simp only [hr, if_false, Option.some.injEq]
    constructor
    · intro h'; exact ⟨by omega, h'.symm⟩
    · intro h'; exact h'.2.symm

/-- C2. On a line of at least 10 `':'`-separated fields every key that
`extract_key` builds has the first character of field 1 as trust letter, the
first character of field 8 as owner-trust letter, the decimal values of fields
2 and 3 as bit length and algorithm id (when these fields are digit strings
whose value fits an `int`), and `gpapa_extract_date` of fields 5 and 6 as
creation and expiration date; a key is built whenever the line has 10 fields
without counting an empty final one. -/
theorem extract_key_members (maxFields : Nat) (line : CStr) (h : 10 ≤ maxFields)
    (hline : 10 ≤ (colonFields line).length) :
    (10 ≤ (recordFields line).length → ∃ key, extract_key maxFields line = (some key, [])) ∧
    ∀ key, (extract_key maxFields line).1 = some key →
      key.KeyTrust = firstChar ((colonFields line).getD 1 []) ∧
      ((∀ c ∈ (colonFields line).getD 2 [], isdigit c = true) →
        decimalValue ((colonFields line).getD 2 []) < 2 ^ 31 →
        key.bits = (decimalValue ((colonFields line).getD 2 []) : Int)) ∧
      ((∀ c ∈ (colonFields line).getD 3 [], isdigit c = true) →
        decimalValue ((colonFields line).getD 3 []) < 2 ^ 31 →
        key.algorithm = (decimalValue ((colonFields line).getD 3 []) : Int)) ∧
      key.OwnerTrust = firstChar ((colonFields line).getD 8 []) ∧
      key.CreationDate = gpapa_extract_date (some ((colonFields line).getD 5 [])) ∧
      key.ExpirationDate = gpapa_extract_date (some ((colonFields line).getD 6 [])) := by
  have _ := hline
  constructor
  · intro hr
    refine ⟨keyFromFields (colonFields line), ?_⟩
    rw [extract_key_eq maxFields line h, if_neg (by omega)]
  · intro key hkey
    obtain ⟨_, rfl⟩ := (extract_key_some_iff maxFields line key h).mp hkey
    refine ⟨rfl, ?_, ?_, rfl, rfl, rfl⟩
    · intro hd _
      exact atoi_of_digits _ hd
    · intro hd _
      exact atoi_of_digits _ hd

/-- C2 at a `pub` record: 1024 bits, algorithm 17, trust letters `u` and `f`. -/
theorem extract_key_members_witness :
    ∃ key,
      (extract_key 20
        "pub:u:1024:17:5DE249965B0358A2:1999-03-15:2006-02-04:59:f:Alice:".toList).1 = some key ∧
      key.KeyTrust = 'u' ∧ key.bits = 1024 ∧ key.algorithm = 17 ∧ key.OwnerTrust = 'f' := by
  have h := extract_key_members 20
    "pub:u:1024:17:5DE249965B0358A2:1999-03-15:2006-02-04:59:f:Alice:".toList
    (by decide) (by decide)
  obtain ⟨key, hk⟩ := h.1 (by decide)
  have hk1 : (extract_key 20
      "pub:u:1024:17:5DE249965B0358A2:1999-03-15:2006-02-04:59:f:Alice:".toList).1 = some key := by
    rw [hk]
  obtain ⟨h1, h2, h3, h8, _, _⟩ := h.2 key hk1
  refine ⟨key, hk1, ?_, ?_, ?_, ?_⟩
  · rw [h1]; decide
  · rw [h2 (by decide) (by decide)]; decide
  · rw [h3 (by decide) (by decide)]; decide
  · rw [h8]; decide

/-- C3, as amended. On a line of at least 10 `':'`-separated fields every key
that `extract_key` builds has as identifier field 4 without its first 8
characters when field 4 has more than 8 characters, which are its trailing 8
characters when field 4 has 16 characters, and a null identifier when field 4
has 8 characters or fewer. -/
theorem extract_key_identifier (maxFields : Nat) (line : CStr) (h : 10 ≤ maxFields)
    (hline : 10 ≤ (colonFields line).length) :
    (10 ≤ (recordFields line).length → ∃ key, extract_key maxFields line = (some key, [])) ∧
    ∀ key, (extract_key maxFields line).1 = some key →
      (8 < ((colonFields line).getD 4 []).length →
        key.KeyID = some (((colonFields line).getD 4 []).drop 8)) ∧
      (((colonFields line).getD 4 []).length = 16 →
        key.KeyID = some (trailing8 ((colonFields line).getD 4 []))) ∧
      (((colonFields line).getD 4 []).length ≤ 8 → key.KeyID = none) := by
  have _ := hline
  constructor
  · intro hr
    refine ⟨keyFromFields (colonFields line), ?_⟩
    rw [extract_key_eq maxFields line h, if_neg (by omega)]
  · intro key hkey
    obtain ⟨_, rfl⟩ := (extract_key_some_iff maxFields line key h).mp hkey
    refine ⟨?_, ?_, ?_⟩
    · intro h8
      simp only [keyFromFields, shortKeyID]
      rw [if_neg (by omega)]
    · intro h16
      simp only [keyFromFields, shortKeyID, trailing8, h16]
      rw [if_neg (by omega)]
    · intro h8
      simp only [keyFromFields, shortKeyID]
      rw [if_pos h8]

/-- The amended C3 at a `pub` record with a 16-character key ID. -/
theorem extract_key_identifier_witness :
    ∃ key,
      (extract_key 20
        "pub:u:1024:17:5DE249965B0358A2:1999-03-15:2006-02-04:59:f:Alice:".toList).1 = some key ∧
      key.KeyID = some "5B0358A2".toList := by
  have h := extract_key_identifier 20
    "pub:u:1024:17:5DE249965B0358A2:1999-03-15:2006-02-04:59:f:Alice:".toList
    (by decide) (by decide)
  obtain ⟨key, hk⟩ := h.1 (by decide)
  have hk1 : (extract_key 20
      "pub:u:1024:17:5DE249965B0358A2:1999-03-15:2006-02-04:59:f:Alice:".toList).1 = some key := by
    rw [hk]
  refine ⟨key, hk1, ?_⟩
  rw [(h.2 key hk1).2.1 (by decide)]
  decide

/-- C3 as stated fails: a field 4 of exactly 8 characters gives a null identifier,
not those 8 characters, and a field 4 of 12 characters gives its last 4
characters, not its last 8. -/
theorem extract_key_identifier_counterexample :
    ((extract_key 20
        "pub:u:1024:17:5B0358A2:1999-03-15:2006-02-04:59:f:Alice:".toList).1.map
          GpapaKey.KeyID = some none ∧
      trailing8 "5B0358A2".toList = "5B0358A2".toList) ∧
    ((extract_key 20
        "pub:u:1024:17:49965B0358A2:1999-03-15:2006-02-04:59:f:Alice:".toList).1.map
          GpapaKey.KeyID = some (some "58A2".toList) ∧
      trailing8 "49965B0358A2".toList = "5B0358A2".toList) := by
  decide

/-- C4, as amended. On a line of at least 10 `':'`-separated fields every key
that `extract_key` builds has a non-null identifier exactly when field 4 has
more than 8 characters. -/
theorem extract_key_nonnull_iff (maxFields : Nat) (line : CStr) (h : 10 ≤ maxFields)
    (hline : 10 ≤ (colonFields line).length) :
    (10 ≤ (recordFields line).length → ∃ key, extract_key maxFields line = (some key, [])) ∧
    ∀ key, (extract_key maxFields line).1 = some key →
      (key.KeyID ≠ none ↔ 8 < ((colonFields line).getD 4 []).length) := by
  have _ := hline
  constructor
  · intro hr
    refine ⟨keyFromFields (colonFields line), ?_⟩
    rw [extract_key_eq maxFields line h, if_neg (by omega)]
  · intro key hkey
    obtain ⟨_, rfl⟩ := (extract_key_some_iff maxFields line key h).mp hkey
    simp only [keyFromFields, shortKeyID]
    by_cases h8 : ((colonFields line).getD 4 []).length ≤ 8
    · rw [if_pos h8]
      constructor
      · intro h'; exact absurd rfl h'
      · intro h'; omega
    · rw [if_neg h8]
      constructor
      · intro _; omega
      · intro _; simp

/-- The amended C4 at a `pub` record with a 16-character key ID. -/
theorem extract_key_nonnull_iff_witness :
    ∃ key,
      (extract_key 20
        "pub:u:1024:17:5DE249965B0358A2:1999-03-15:2006-02-04:59:f:Alice:".toList).1 = some key ∧
      key.KeyID ≠ none := by
  have h := extract_key_nonnull_iff 20
    "pub:u:1024:17:5DE249965B0358A2:1999-03-15:2006-02-04:59:f:Alice:".toList
    (by decide) (by decide)
  obtain ⟨key, hk⟩ := h.1 (by decide)
  have hk1 : (extract_key 20
      "pub:u:1024:17:5DE249965B0358A2:1999-03-15:2006-02-04:59:f:Alice:".toList).1 = some key := by
    rw [hk]
  exact ⟨key, hk1, (h.2 key hk1).mpr (by decide)⟩

/-- C4 as stated fails: a record whose field 4 is empty yields a key with a null
identifier. -/
theorem extract_key_nonnull_iff_counterexample :
    (extract_key 20 "sec:u:1024:17::1999-03-15:2006-02-04:59:f:Alice:".toList).1.map
      GpapaKey.KeyID = some none := by
  decide


/-! ## Un-quoting the user ID (C5) -/

theorem quotedColon_isPrefixOf_cons4 (a b c d : Char) (r : CStr) :
    quotedColon.isPrefixOf (a :: b :: c :: d :: r) = true ↔
      a = '\\' ∧ b = 'x' ∧ c = '3' ∧ d = 'a' := by
  simp only [quotedColon, List.isPrefixOf, Bool.and_eq_true, beq_iff_eq, Bool.and_true]
  constructor
  · rintro ⟨h1, h2, h3, h4⟩
    exact ⟨h1.symm, h2.symm, h3.symm, h4.symm⟩
  · rintro ⟨h1, h2, h3, h4⟩
    exact ⟨h1.symm, h2.symm, h3.symm, h4.symm⟩

theorem quotedColon_isPrefixOf_length (l : CStr) (h : quotedColon.isPrefixOf l = true) :
    ∃ a b c d r, l = a :: b :: c :: d :: r := by
  rcases l with _ | ⟨a, _ | ⟨b, _ | ⟨c, _ | ⟨d, r⟩⟩⟩⟩
  · simp [quotedColon, List.isPrefixOf] at h
  · simp [quotedColon, List.isPrefixOf] at h
  · simp [quotedColon, List.isPrefixOf] at h
  · simp [quotedColon, List.isPrefixOf] at h
  · exact ⟨a, b, c, d, r, rfl⟩

theorem unescapeColons_of_not (c : Char) (cs : CStr)
    (h : ¬ quotedColon.isPrefixOf (c :: cs) = true) :
    unescapeColons (c :: cs) = c :: unescapeColons cs := by
  rw [unescapeColons.eq_def]
  simp only [if_neg h]

theorem unescapeColons_of_token (a b c d : Char) (r : CStr)
    (h : quotedColon.isPrefixOf (a :: b :: c :: d :: r) = true) :
    unescapeColons (a :: b :: c :: d :: r) = ':' :: unescapeColons r := by
  rw [unescapeColons.eq_def]
  simp only [if_pos h]

theorem strstr_cons_pos (c : Char) (cs needle : CStr)
    (h : needle.isPrefixOf (c :: cs) = true) : strstr (c :: cs) needle = some 0 := by
  rw [strstr, if_pos h]

theorem strstr_cons_neg (c : Char) (cs needle : CStr)
    (h : ¬ needle.isPrefixOf (c :: cs) = true) :
    strstr (c :: cs) needle = (strstr cs needle).map (· + 1) := by
  rw [strstr, if_neg h]

theorem strstr_quotedColon_length (s : CStr) (k : Nat) (h : strstr s quotedColon = some k) :
    k + 4 ≤ s.length := by
  induction s generalizing k with
  | nil => simp [strstr, quotedColon] at h
  | cons c cs ih =>
    by_cases hp : quotedColon.isPrefixOf (c :: cs) = true
    · obtain ⟨a, b, c', d, r, hr⟩ := quotedColon_isPrefixOf_length _ hp
      rw [strstr_cons_pos c cs _ hp, Option.some.injEq] at h
      rw [hr, ← h]
      simp
    · rw [strstr_cons_neg c cs _ hp, Option.map_eq_some'] at h
      obtain ⟨k', hk', rfl⟩ := h
      have := ih k' hk'
      simp only [List.length_cons]
      omega

theorem unescapeColons_of_strstr_none (s : CStr) (h : strstr s quotedColon = none) :
    unescapeColons s = s := by
  induction s with
  | nil => rfl
  | cons c cs ih =>
    by_cases hp : quotedColon.isPrefixOf (c :: cs) = true
    · rw [strstr_cons_pos c cs _ hp] at h
      cases h
    · rw [strstr_cons_neg c cs _ hp, Option.map_eq_none'] at h
      rw [unescapeColons_of_not c cs hp, ih h]

/-- One iteration of the loop does not change what the single pass yields. -/
theorem unescapeColons_replace_first (s : CStr) (k : Nat)
    (h : strstr s quotedColon = some k) :
    unescapeColons (s.take k ++ ':' :: s.drop (k + 4)) = unescapeColons s := by
  induction s generalizing k with
  | nil => simp [strstr, quotedColon] at h
  | cons c cs ih =>
    by_cases hp : quotedColon.isPrefixOf (c :: cs) = true
    · obtain ⟨a, b, c', d, r, hr⟩ := quotedColon_isPrefixOf_length _ hp
      rw [strstr_cons_pos c cs _ hp, Option.some.injEq] at h
      subst h
      rw [hr] at hp ⊢
      rw [unescapeColons_of_token a b c' d r hp]
      simp only [List.take_zero, List.nil_append, Nat.zero_add, List.drop_succ_cons,
        List.drop_zero]
      rw [unescapeColons_of_not]
      cases r with
      | nil => simp [quotedColon, List.isPrefixOf]
      | cons r0 rs => simp [quotedColon, List.isPrefixOf]
    · have hp0 := hp
      rw [strstr_cons_neg c cs _ hp, Option.map_eq_some'] at h
      obtain ⟨k', hk', rfl⟩ := h
      have hlen := strstr_quotedColon_length cs k' hk'
      have hnew : (c :: cs).take (k' + 1) ++ ':' :: (c :: cs).drop (k' + 1 + 4)
          = c :: (cs.take k' ++ ':' :: cs.drop (k' + 4)) := by
        simp [List.take_succ_cons, Nat.add_right_comm]
      rw [hnew, unescapeColons_of_not c cs hp0, unescapeColons_of_not, ih k' hk']
      intro hq
      apply hp0
      rcases cs with _ | ⟨c1, _ | ⟨c2, _ | ⟨c3, cs3⟩⟩⟩
      · simp at hlen
      · simp at hlen
      · simp at hlen
      · rcases k' with _ | _ | _ | k3
        · simp [quotedColon, List.isPrefixOf] at hq
        · simp [quotedColon, List.isPrefixOf] at hq
        · simp [quotedColon, List.isPrefixOf] at hq
        · simp only [List.take_succ_cons, List.cons_append] at hq
          rw [quotedColon_isPrefixOf_cons4] at hq ⊢
          exact hq

theorem unquoteLoop_eq (fuel : Nat) :
    ∀ s : CStr, s.length ≤ fuel → unquoteLoop fuel s = unescapeColons s := by
  induction fuel with
  | zero =>
    intro s hs
    have : s = [] := List.length_eq_zero.mp (Nat.le_zero.mp hs)
    subst this
    rfl
  | succ fuel ih =>
    intro s hs
    cases hk : strstr s quotedColon with
    | none =>
      simp only [unquoteLoop, hk]
      exact (unescapeColons_of_strstr_none s hk).symm
    | some k =>
      have hlen := strstr_quotedColon_length s k hk
      simp only [unquoteLoop, hk]
      rw [ih, unescapeColons_replace_first s k hk]
      simp only [List.length_append, List.length_take, List.length_cons, List.length_drop]
      omega

theorem unquoteLoop_no_token (fuel : Nat) :
    ∀ s : CStr, s.length ≤ fuel → strstr (unquoteLoop fuel s) quotedColon = none := by
  induction fuel with
  | zero =>
    intro s hs
    have : s = [] := List.length_eq_zero.mp (Nat.le_zero.mp hs)
    subst this
    rfl
  | succ fuel ih =>
    intro s hs
    cases hk : strstr s quotedColon with
    | none =>
      simp only [unquoteLoop, hk]
    | some k =>
      have hlen := strstr_quotedColon_length s k hk
      simp only [unquoteLoop, hk]
      apply ih
      simp only [List.length_append, List.length_take, List.length_cons, List.length_drop]
      omega

/-- The restarting loop of `extract_key` computes the single left-to-right pass. -/
theorem unquoteUserID_eq (s : CStr) : unquoteUserID s = unescapeColons s :=
  unquoteLoop_eq s.length s (Nat.le_refl _)

theorem unquoteUserID_no_token (s : CStr) : strstr (unquoteUserID s) quotedColon = none :=
  unquoteLoop_no_token s.length s (Nat.le_refl _)

/-- C5. On a line of at least 10 `':'`-separated fields every key that
`extract_key` builds has as user ID field 9 after one left-to-right pass that
replaces each escape token `\x3a` by a single `':'` and keeps every other
character; the loop of the code, which searches from the start again after each
replacement, computes exactly this pass, its result holds no token any more,
and `Alice\x3aBob` becomes `Alice:Bob`. A key is built whenever the line has 10
fields without counting an empty final one. -/
theorem extract_key_userID (maxFields : Nat) (line : CStr) (h : 10 ≤ maxFields)
    (hline : 10 ≤ (colonFields line).length) :
    (10 ≤ (recordFields line).length → ∃ key, extract_key maxFields line = (some key, [])) ∧
    (∀ key, (extract_key maxFields line).1 = some key →
      key.UserID = some (unescapeColons ((colonFields line).getD 9 [])) ∧
      strstr (unescapeColons ((colonFields line).getD 9 [])) quotedColon = none) ∧
    unquoteUserID "Alice\\x3aBob".toList = "Alice:Bob".toList := by
  have _ := hline
  refine ⟨?_, ?_, by decide⟩
  · intro hr
    refine ⟨keyFromFields (colonFields line), ?_⟩
    rw [extract_key_eq maxFields line h, if_neg (by omega)]
  · intro key hkey
    obtain ⟨_, rfl⟩ := (extract_key_some_iff maxFields line key h).mp hkey
    constructor
    · simp only [keyFromFields, unquoteUserID_eq]
    · rw [← unquoteUserID_eq]
      exact unquoteUserID_no_token _

/-- C5 at a `pub` record whose user ID holds two escape tokens. -/
theorem extract_key_userID_witness :
    ∃ key,
      (extract_key 20
        "pub:u:1024:17:5DE249965B0358A2:1999-03-15::59:f:Alice\\x3aBob \\x3a-):".toList).1
          = some key ∧
      key.UserID = some "Alice:Bob :-)".toList := by
  have h := extract_key_userID 20
    "pub:u:1024:17:5DE249965B0358A2:1999-03-15::59:f:Alice\\x3aBob \\x3a-):".toList
    (by decide) (by decide)
  obtain ⟨key, hk⟩ := h.1 (by decide)
  have hk1 : (extract_key 20
      "pub:u:1024:17:5DE249965B0358A2:1999-03-15::59:f:Alice\\x3aBob \\x3a-):".toList).1
        = some key := by
    rw [hk]
  refine ⟨key, hk1, ?_⟩
  rw [(h.2.1 key hk1).1]
  decide


/-! ## Text behind the field bound (C6, C7) -/

theorem colonFields_append_colon (line t : CStr) :
    colonFields (line ++ ':' :: t) = colonFields line ++ colonFields t := by
  induction line with
  | nil => simp [colonFields]
  | cons c cs ih =>
    by_cases hc : c = ':'
    · simp [colonFields, hc, ih]
    · obtain ⟨f, fs, hfs⟩ := List.exists_cons_of_ne_nil (colonFields_ne_nil cs)
      have ih2 : colonFields (cs ++ ':' :: t) = f :: (fs ++ colonFields t) := by
        rw [ih, hfs]; rfl
      rw [List.cons_append]
      simp only [colonFields, hc, if_false, ih2, hfs, List.cons_append]

theorem recordFields_append_colon (line t : CStr) :
    recordFields (line ++ ':' :: t) = colonFields line ++ recordFields t := by
  have hne := colonFields_ne_nil t
  simp only [recordFields, colonFields_append_colon,
    List.getLast?_append_of_ne_nil (colonFields line) hne]
  split
  · exact List.dropLast_append_of_ne_nil _ hne
  · rfl

theorem colon_not_mem_colonFields (line : CStr) : ∀ f ∈ colonFields line, ':' ∉ f := by
  induction line with
  | nil => simp [colonFields]
  | cons c cs ih =>
    by_cases hc : c = ':'
    · intro f hf
      simp only [colonFields, hc, if_true, List.mem_cons] at hf
      rcases hf with rfl | hf
      · simp
      · exact ih f hf
    · obtain ⟨g, gs, hgs⟩ := List.exists_cons_of_ne_nil (colonFields_ne_nil cs)
      intro f hf
      simp only [colonFields, hc, if_false, hgs, List.mem_cons] at hf
      rcases hf with rfl | hf
      · have := ih g (by simp [hgs])
        simp only [List.mem_cons, not_or]
        exact ⟨fun h => hc h.symm, this⟩
      · exact ih f (by simp [hgs, hf])

/-- A line has 10 record fields as soon as it has 10 `':'`-separated fields and,
if it has exactly 10, the tenth is not empty. -/
theorem ten_le_recordFields (line : CStr) (hline : 10 ≤ (colonFields line).length)
    (h9 : (colonFields line).length = 10 → (colonFields line).getD 9 [] ≠ []) :
    10 ≤ (recordFields line).length := by
  unfold recordFields
  split
  · next hlast =>
    rw [List.length_dropLast]
    by_cases h10 : (colonFields line).length = 10
    · exfalso
      apply h9 h10
      rw [List.getLast?_eq_getElem?, h10] at hlast
      simp [List.getD_eq_getElem?_getD, hlast]
    · omega
  · exact hline

/-- C6, as amended. For a field bound of at least 10, a line that has at least
that many `':'`-separated fields, other than a line of exactly 10 fields with
an empty tenth field when the bound is 10, and any text `t`: `extract_key`
builds a key on the line, and on the line followed by `':'` and `t` it returns
the same key and makes the same (no) callback invocations. -/
theorem extract_key_trailing (maxFields : Nat) (line t : CStr) (h : 10 ≤ maxFields)
    (hline : maxFields ≤ (colonFields line).length)
    (hedge : ¬ (maxFields = 10 ∧ (colonFields line).length = 10 ∧
      (colonFields line).getD 9 [] = [])) :
    (∃ key, extract_key maxFields line = (some key, [])) ∧
    extract_key maxFields (line ++ ':' :: t) = extract_key maxFields line := by
  have hr : 10 ≤ (recordFields line).length := by
    apply ten_le_recordFields line (by omega)
    intro h10 h9
    exact hedge ⟨by omega, h10, h9⟩
  have hr2 : 10 ≤ (recordFields (line ++ ':' :: t)).length := by
    rw [recordFields_append_colon, List.length_append]
    omega
  rw [extract_key_eq maxFields line h, extract_key_eq maxFields _ h,
    if_neg (by omega), if_neg (by omega)]
  refine ⟨⟨_, rfl⟩, ?_⟩
  congr 2
  apply keyFromFields_congr
  intro k hk
  rw [colonFields_append_colon]
  exact List.getD_append _ _ _ _ (by omega)

/-- The amended C6 at a record of exactly 10 fields, bound 10, followed by two more fields. -/
theorem extract_key_trailing_witness :
    extract_key 10
        ("pub:u:1024:17:5DE249965B0358A2:1999-03-15:2006-02-04:59:f:Alice".toList
          ++ ':' :: "scESC:extra".toList) =
      extract_key 10 "pub:u:1024:17:5DE249965B0358A2:1999-03-15:2006-02-04:59:f:Alice".toList :=
  (extract_key_trailing 10
    "pub:u:1024:17:5DE249965B0358A2:1999-03-15:2006-02-04:59:f:Alice".toList
    "scESC:extra".toList (by decide) (by decide) (by decide)).2

/-- C6 as stated fails for the bound 10: a line of 10 `':'`-separated fields whose
tenth field is empty yields no key, but the same line followed by `':'` and a
further field yields one. -/
theorem extract_key_trailing_counterexample :
    10 ≤ (colonFields "pub:u:1024:17:5DE249965B0358A2:1999-03-15:2006-02-04:59:f:".toList).length ∧
    (extract_key 10 "pub:u:1024:17:5DE249965B0358A2:1999-03-15:2006-02-04:59:f:".toList).1
      = none ∧
    (extract_key 10
      ("pub:u:1024:17:5DE249965B0358A2:1999-03-15:2006-02-04:59:f:".toList
        ++ ':' :: "scESC".toList)).1.isSome = true := by
  decide

/-- C7, as amended. When a line has more `':'`-separated fields than the field
bound, the tokenizer captures exactly the first `maxFields` of them: its last
captured field (index `maxFields - 1`) is that single field, it holds no `':'`,
and the text behind it is in no captured field. -/
theorem tokenize_excess (maxFields : Nat) (line : CStr) (h : 1 ≤ maxFields)
    (hline : maxFields < (colonFields line).length) :
    tokenize maxFields line = (colonFields line).take maxFields ∧
    (tokenize maxFields line).length = maxFields ∧
    (tokenize maxFields line).getD (maxFields - 1) [] =
      (colonFields line).getD (maxFields - 1) [] ∧
    ':' ∉ (tokenize maxFields line).getD (maxFields - 1) [] := by
  have htok : tokenize maxFields line = (colonFields line).take maxFields := by
    rw [tokenize_eq maxFields line h]
    unfold recordFields
    split
    · rw [List.dropLast_eq_take, List.take_take]
      congr 1
      omega
    · rfl
  have hget : (tokenize maxFields line).getD (maxFields - 1) [] =
      (colonFields line).getD (maxFields - 1) [] :=
    tokenize_getD maxFields line (maxFields - 1) h (by omega)
  refine ⟨htok, ?_, hget, ?_⟩
  · rw [htok, List.length_take]
    omega
  · rw [hget]
    apply colon_not_mem_colonFields line
    rw [List.getD_eq_getElem _ _ (by omega)]
    exact List.getElem_mem _

/-- The amended C7 at a line of 12 fields, bound 10. -/
theorem tokenize_excess_witness :
    (tokenize 10 "f0:f1:f2:f3:f4:f5:f6:f7:f8:f9:f10:f11".toList).getD (10 - 1) []
      = "f9".toList := by
  rw [(tokenize_excess 10 "f0:f1:f2:f3:f4:f5:f6:f7:f8:f9:f10:f11".toList
    (by decide) (by decide)).2.2.1]
  decide

/-- C7 as stated fails: on a line of 12 fields and the bound 10 the last captured
field is `f9`, not the remaining text `f9:f10:f11`. -/
theorem tokenize_excess_counterexample :
    tokenize 10 "f0:f1:f2:f3:f4:f5:f6:f7:f8:f9:f10:f11".toList =
      ["f0".toList, "f1".toList, "f2".toList, "f3".toList, "f4".toList, "f5".toList,
        "f6".toList, "f7".toList, "f8".toList, "f9".toList] ∧
    (tokenize 10 "f0:f1:f2:f3:f4:f5:f6:f7:f8:f9:f10:f11".toList).getD 9 []
      ≠ "f9:f10:f11".toList := by
  decide


/-! ## The fingerprint formatter (C8, C9, C10) -/

theorem ne_space_of_isxdigit (c : Char) (h : isxdigit c = true) : c ≠ ' ' := by
  rintro rfl
  revert h
  decide

theorem filter_groupLoop (lim small big : Nat) (f : CStr) (h : ∀ x ∈ f, x ≠ ' ') (c : Nat) :
    (groupLoop lim small big f c).filter (fun x => x != ' ') = f := by
  induction f generalizing c with
  | nil => rfl
  | cons ch r ih =>
    have hch : ch ≠ ' ' := h ch (by simp)
    have hr := ih (fun x hx => h x (by simp [hx])) (c + 1)
    simp only [groupLoop, List.filter_cons, List.filter_append, hr]
    have h1 : (ch != ' ') = true := by simpa using hch
    rw [if_pos h1]
    congr 1
    split
    · split <;> split <;> simp
    · simp

theorem count_space_of_filter (out f : CStr)
    (h : out.filter (fun x => x != ' ') = f) : out.count ' ' + f.length = out.length := by
  have h1 := List.length_eq_length_filter_add (l := out) (fun x => x == ' ')
  have h2 : out.filter (fun x => !(x == ' ')) = f := h
  rw [h2] at h1
  rw [List.count_eq_countP, List.countP_eq_length_filter]
  omega

theorem groupLoop_rsa (f : CStr) (h : f.length = 32) :
    groupLoop 32 2 16 f 0 = rsaGrouping f ∧ (rsaGrouping f).length = 48 ∧
      (groups2 f).length = 16 ∧ (groups2 f).flatten = f := by
  iterate 32
    rcases f with _ | ⟨_, f⟩
    · simp at h
  rcases f with _ | ⟨_, f⟩
  · exact ⟨rfl, rfl, rfl, rfl⟩
  · simp at h

theorem groupLoop_dsa (f : CStr) (h : f.length = 40) :
    groupLoop 40 4 20 f 0 = dsaGrouping f ∧ (dsaGrouping f).length = 50 ∧
      (groups4 f).length = 10 ∧ (groups4 f).flatten = f := by
  iterate 40
    rcases f with _ | ⟨_, f⟩
    · simp at h
  rcases f with _ | ⟨_, f⟩
  · exact ⟨rfl, rfl, rfl, rfl⟩
  · simp at h


theorem groupLoop_length_rsa (f : CStr) (c : Nat) :
    (groupLoop 32 2 16 f c).length + (min c 31 / 2 + min c 31 / 16) ≤ f.length + 16 := by
  induction f generalizing c with
  | nil => simp only [groupLoop, List.length_nil]; omega
  | cons ch r ih =>
    have := ih (c + 1)
    simp only [groupLoop, List.length_cons, List.length_append]
    split_ifs <;>
      (try simp only [List.length_nil, List.length_cons, List.length_append]) <;> omega

theorem groupLoop_length_dsa (f : CStr) (c : Nat) :
    (groupLoop 40 4 20 f c).length + (min c 39 / 4 + min c 39 / 20) ≤ f.length + 10 := by
  induction f generalizing c with
  | nil => simp only [groupLoop, List.length_nil]; omega
  | cons ch r ih =>
    have := ih (c + 1)
    simp only [groupLoop, List.length_cons, List.length_append]
    split_ifs <;>
      (try simp only [List.length_nil, List.length_cons, List.length_append]) <;> omega

/-- C8. For a fingerprint line of at least 10 `':'`-separated fields whose field 9
is a string of 32 hexadecimal digits, `gpapa_extract_fingerprint` with the
algorithm id 1 returns the 16 two-character groups of field 9 in order, with a
single space between neighbouring groups, a double space after the 16th
character and nothing in front or behind: 48 characters, 16 of them spaces,
and field 9 again once the spaces are taken out. -/
theorem fingerprint_rsa (maxFields : Nat) (line : CStr) (h : 10 ≤ maxFields)
    (hline : 10 ≤ (colonFields line).length)
    (hlen : ((colonFields line).getD 9 []).length = 32)
    (hdig : ∀ c ∈ (colonFields line).getD 9 [], isxdigit c = true) :
    gpapa_extract_fingerprint maxFields line 1 =
      (some (rsaGrouping ((colonFields line).getD 9 [])), []) ∧
    (groups2 ((colonFields line).getD 9 [])).length = 16 ∧
    (groups2 ((colonFields line).getD 9 [])).flatten = (colonFields line).getD 9 [] ∧
    (rsaGrouping ((colonFields line).getD 9 [])).length = 48 ∧
    (rsaGrouping ((colonFields line).getD 9 [])).count ' ' = 16 ∧
    (rsaGrouping ((colonFields line).getD 9 [])).filter (fun x => x != ' ') =
      (colonFields line).getD 9 [] := by
  have hr : 10 ≤ (recordFields line).length := by
    apply ten_le_recordFields line hline
    intro _ h9
    rw [h9] at hlen
    simp at hlen
  obtain ⟨hg, hl, hn, hj⟩ := groupLoop_rsa _ hlen
  have hfil := filter_groupLoop 32 2 16 ((colonFields line).getD 9 [])
    (fun x hx => ne_space_of_isxdigit x (hdig x hx)) 0
  rw [hg] at hfil
  have hcount := count_space_of_filter _ _ hfil
  refine ⟨?_, hn, hj, hl, by omega, hfil⟩
  rw [gpapa_extract_fingerprint_eq maxFields line 1 h, if_neg (by omega)]
  simp only [formatFingerprint, if_true, hg]

/-- C8 at an `fpr` record with a 32-digit fingerprint. -/
theorem fingerprint_rsa_witness :
    gpapa_extract_fingerprint 20
        "fpr:::::::::0123456789ABCDEFFEDCBA9876543210:".toList 1 =
      (some "01 23 45 67 89 AB CD EF  FE DC BA 98 76 54 32 10".toList, []) := by
  rw [(fingerprint_rsa 20 "fpr:::::::::0123456789ABCDEFFEDCBA9876543210:".toList
    (by decide) (by decide) (by decide) (by decide)).1]
  decide

/-- C9. For a fingerprint line of at least 10 `':'`-separated fields whose field 9
is a string of 40 hexadecimal digits, `gpapa_extract_fingerprint` with an
algorithm id other than 1 returns the 10 four-character groups of field 9 in
order, with a single space between neighbouring groups, a double space after
the 20th character and nothing behind the last group: 50 characters, 10 of
them spaces, and field 9 again once the spaces are taken out. -/
theorem fingerprint_dsa (maxFields : Nat) (line : CStr) (algorithm : Int)
    (h : 10 ≤ maxFields) (halg : algorithm ≠ 1)
    (hline : 10 ≤ (colonFields line).length)
    (hlen : ((colonFields line).getD 9 []).length = 40)
    (hdig : ∀ c ∈ (colonFields line).getD 9 [], isxdigit c = true) :
    gpapa_extract_fingerprint maxFields line algorithm =
      (some (dsaGrouping ((colonFields line).getD 9 [])), []) ∧
    (groups4 ((colonFields line).getD 9 [])).length = 10 ∧
    (groups4 ((colonFields line).getD 9 [])).flatten = (colonFields line).getD 9 [] ∧
    (dsaGrouping ((colonFields line).getD 9 [])).length = 50 ∧
    (dsaGrouping ((colonFields line).getD 9 [])).count ' ' = 10 ∧
    (dsaGrouping ((colonFields line).getD 9 [])).filter (fun x => x != ' ') =
      (colonFields line).getD 9 [] := by
  have hr : 10 ≤ (recordFields line).length := by
    apply ten_le_recordFields line hline
    intro _ h9
    rw [h9] at hlen
    simp at hlen
  obtain ⟨hg, hl, hn, hj⟩ := groupLoop_dsa _ hlen
  have hfil := filter_groupLoop 40 4 20 ((colonFields line).getD 9 [])
    (fun x hx => ne_space_of_isxdigit x (hdig x hx)) 0
  rw [hg] at hfil
  have hcount := count_space_of_filter _ _ hfil
  refine ⟨?_, hn, hj, hl, by omega, hfil⟩
  rw [gpapa_extract_fingerprint_eq maxFields line algorithm h, if_neg (by omega)]
  simp only [formatFingerprint, if_neg halg, hg]

/-- C9 at an `fpr` record with a 40-digit fingerprint, algorithm id 17. -/
theorem fingerprint_dsa_witness :
    gpapa_extract_fingerprint 20
        "fpr:::::::::ECAF7590EB3443B5C7CF3ACB6C7EE1B8621CC013:".toList 17 =
      (some "ECAF 7590 EB34 43B5 C7CF  3ACB 6C7E E1B8 621C C013".toList, []) := by
  rw [(fingerprint_dsa 20 "fpr:::::::::ECAF7590EB3443B5C7CF3ACB6C7EE1B8621CC013:".toList 17
    (by decide) (by decide) (by decide) (by decide) (by decide)).1]
  decide

/-- C10. For every raw fingerprint field and every algorithm id the string
`gpapa_extract_fingerprint` builds is at most 16 characters longer than the
field when the id is 1 and at most 10 characters longer otherwise, so that the
string and its terminator fit the buffer allocated for them; this holds for
the string returned on any line. -/
theorem fingerprint_fits (algorithm : Int) (f : CStr) :
    (formatFingerprint algorithm f).length ≤ f.length + (if algorithm = 1 then 16 else 10) ∧
    (formatFingerprint algorithm f).length + 1 ≤ fingerprintBufferSize algorithm f ∧
    ∀ (maxFields : Nat) (line out : CStr),
      (gpapa_extract_fingerprint maxFields line algorithm).1 = some out →
        out.length + 1 ≤
          fingerprintBufferSize algorithm ((tokenize maxFields line).getD 9 []) := by
  have key : ∀ g : CStr,
      (formatFingerprint algorithm g).length + 1 ≤ fingerprintBufferSize algorithm g := by
    intro g
    have h1 := groupLoop_length_rsa g 0
    have h2 := groupLoop_length_dsa g 0
    by_cases ha : algorithm = 1
    · simp only [formatFingerprint, fingerprintBufferSize, if_pos ha]
      omega
    · simp only [formatFingerprint, fingerprintBufferSize, if_neg ha]
      omega
  refine ⟨?_, key f, ?_⟩
  · have := key f
    by_cases ha : algorithm = 1
    · simp only [fingerprintBufferSize, if_pos ha] at this ⊢
      omega
    · simp only [fingerprintBufferSize, if_neg ha] at this ⊢
      omega
  · intro maxFields line out hout
    simp only [gpapa_extract_fingerprint] at hout
    split at hout
    · cases hout
    · simp only [Option.some.injEq] at hout
      rw [← hout]
      exact key _

/-! ## The date parser (C11, C12, C13) -/

theorem takeWhile_isdigit_append (ys : CStr) (s : Char) (r : CStr)
    (h : ∀ c ∈ ys, isdigit c = true) (hs : isdigit s = false) :
    (ys ++ s :: r).takeWhile isdigit = ys := by
  induction ys with
  | nil => simp [List.takeWhile, hs]
  | cons c cs ih =>
    have hc : isdigit c = true := h c (by simp)
    rw [List.cons_append, List.takeWhile_cons_of_pos hc,
      ih (fun d hd => h d (by simp [hd]))]

theorem dropWhile_isdigit_append (ys : CStr) (s : Char) (r : CStr)
    (h : ∀ c ∈ ys, isdigit c = true) (hs : isdigit s = false) :
    (ys ++ s :: r).dropWhile isdigit = s :: r := by
  induction ys with
  | nil => simp [List.dropWhile, hs]
  | cons c cs ih =>
    have hc : isdigit c = true := h c (by simp)
    rw [List.cons_append, List.dropWhile_cons_of_pos hc,
      ih (fun d hd => h d (by simp [hd]))]

theorem g_date_valid_dmy_eq (d m y : Nat) : g_date_valid_dmy d m y = validCalendarDate d m y := by
  have hleap : g_date_is_leap_year y = isLeapYear y := by
    simp only [g_date_is_leap_year, isLeapYear]
    rw [Bool.eq_iff_iff]
    simp
  by_cases hm : 1 ≤ m ∧ m ≤ 12
  · obtain ⟨h1, h2⟩ := hm
    rw [Bool.eq_iff_iff]
    simp only [g_date_valid_dmy, validCalendarDate, hleap, Bool.and_eq_true, decide_eq_true_eq]
    interval_cases m <;> simp [days_in_months, daysInMonth] <;> omega
  · rw [Bool.eq_iff_iff]
    simp only [g_date_valid_dmy, validCalendarDate, Bool.and_eq_true, decide_eq_true_eq]
    constructor
    · intro h; omega
    · intro h; omega

theorem gpapa_extract_date_eq (buffer : CStr) :
    gpapa_extract_date (some buffer) =
      if yearComponent buffer ≠ [] ∧ monthComponent buffer ≠ [] ∧ dayComponent buffer ≠ [] then
        g_date_new_dmy (atoi (dayComponent buffer)) (atoi (monthComponent buffer))
          (atoi (yearComponent buffer))
      else none := rfl

theorem g_date_new_dmy_valid (day month year : Int) (d : GDate)
    (h : g_date_new_dmy day month year = some d) :
    validCalendarDate d.day d.month d.year = true := by
  simp only [g_date_new_dmy] at h
  split at h
  · next hv =>
    simp only [Option.some.injEq] at h
    rw [← h, ← g_date_valid_dmy_eq]
    exact hv.2
  · cases h

/-- Every date that `gpapa_extract_date` returns is a valid calendar date. -/
theorem gpapa_extract_date_valid (input : Option CStr) (d : GDate)
    (h : gpapa_extract_date input = some d) :
    validCalendarDate d.day d.month d.year = true := by
  cases input with
  | none => cases h
  | some buffer =>
    rw [gpapa_extract_date_eq] at h
    split at h
    · exact g_date_new_dmy_valid _ _ _ d h
    · cases h

/-- C11. For a year, a month and a day written as non-empty runs of decimal
digits that denote a valid calendar date with a year of at most 65535, and two
separator bytes that are neither digits nor NUL, `gpapa_extract_date` on
year, separator, month, separator, day returns the date with exactly that
day, month and year. -/
theorem gpapa_extract_date_ymd (ys ms ds : CStr) (s1 s2 : Char)
    (hy : ys ≠ []) (hm : ms ≠ []) (hd : ds ≠ [])
    (hyd : ∀ c ∈ ys, isdigit c = true) (hmd : ∀ c ∈ ms, isdigit c = true)
    (hdd : ∀ c ∈ ds, isdigit c = true)
    (hs1 : isdigit s1 = false) (hn1 : s1 ≠ NUL) (hs2 : isdigit s2 = false) (hn2 : s2 ≠ NUL)
    (hvalid : validCalendarDate (decimalValue ds) (decimalValue ms) (decimalValue ys) = true)
    (hyear : decimalValue ys ≤ 65535) :
    gpapa_extract_date (some (ys ++ s1 :: (ms ++ s2 :: ds))) =
      some { day := decimalValue ds, month := decimalValue ms, year := decimalValue ys } := by
  have _ := hn1
  have _ := hn2
  have e1 : yearComponent (ys ++ s1 :: (ms ++ s2 :: ds)) = ys :=
    takeWhile_isdigit_append ys s1 _ hyd hs1
  have e2 : monthComponent (ys ++ s1 :: (ms ++ s2 :: ds)) = ms := by
    simp only [monthComponent, dropWhile_isdigit_append ys s1 _ hyd hs1, skipByte]
    exact takeWhile_isdigit_append ms s2 _ hmd hs2
  have e3 : dayComponent (ys ++ s1 :: (ms ++ s2 :: ds)) = ds := by
    simp only [dayComponent, dropWhile_isdigit_append ys s1 _ hyd hs1, skipByte,
      dropWhile_isdigit_append ms s2 _ hmd hs2]
  rw [gpapa_extract_date_eq, e1, e2, e3, if_pos ⟨hy, hm, hd⟩,
    atoi_of_digits ds hdd, atoi_of_digits ms hmd, atoi_of_digits ys hyd]
  have hv := hvalid
  simp only [validCalendarDate, decide_eq_true_eq] at hv
  have hday : decimalValue ds ≤ 31 := by
    have : daysInMonth (decimalValue ys) (decimalValue ms) ≤ 31 := by
      unfold daysInMonth
      split_ifs <;> omega
    omega
  have hdmod : (((decimalValue ds : Nat) : Int) % 256).toNat = decimalValue ds := by omega
  have hymod : (((decimalValue ys : Nat) : Int) % 65536).toNat = decimalValue ys := by omega
  simp only [g_date_new_dmy, hdmod, hymod, Int.toNat_ofNat, g_date_valid_dmy_eq, hvalid]
  simp

/-- C11 at "2001-05-31": day 31, month 5, year 2001. -/
theorem gpapa_extract_date_ymd_witness :
    gpapa_extract_date (some "2001-05-31".toList) = some { day := 31, month := 5, year := 2001 } :=
  gpapa_extract_date_ymd "2001".toList "05".toList "31".toList '-' '-'
    (by decide) (by decide) (by decide) (by decide) (by decide) (by decide)
    (by decide) (by decide) (by decide) (by decide) (by decide) (by decide)

/-- C12. `gpapa_extract_date` is a total function that returns a date or nothing
and has no other effect; it returns nothing on a null input and whenever the
year, the month or the day component is empty after parsing, as on "", "2001",
"2001-05", "-05-31" and "2001--31". -/
theorem gpapa_extract_date_absent :
    gpapa_extract_date none = none ∧
    (∀ buffer : CStr,
      yearComponent buffer = [] ∨ monthComponent buffer = [] ∨ dayComponent buffer = [] →
        gpapa_extract_date (some buffer) = none) ∧
    (∀ input : Option CStr,
      gpapa_extract_date input = none ∨ ∃ d, gpapa_extract_date input = some d) ∧
    gpapa_extract_date (some "".toList) = none ∧
    gpapa_extract_date (some "2001".toList) = none ∧
    gpapa_extract_date (some "2001-05".toList) = none ∧
    gpapa_extract_date (some "-05-31".toList) = none ∧
    gpapa_extract_date (some "2001--31".toList) = none := by
  refine ⟨rfl, ?_, ?_, by decide, by decide, by decide, by decide, by decide⟩
  · intro buffer h
    rw [gpapa_extract_date_eq, if_neg]
    rintro ⟨h1, h2, h3⟩
    rcases h with h | h | h
    · exact h1 h
    · exact h2 h
    · exact h3 h
  · intro input
    cases h : gpapa_extract_date input with
    | none => exact Or.inl rfl
    | some d => exact Or.inr ⟨d, rfl⟩

/-- C13. Every date that `gpapa_extract_date` returns, and so every creation or
expiration date of a key that `extract_key` builds, is a valid calendar date,
and "0000-00-00" yields nothing. But an input with three non-empty components
that form no valid date does not always yield nothing: the day is narrowed to
8 bits and the year to 16 bits on the way into `g_date_new_dmy`, so that
"2001-05-287" yields 31 May 2001 and "67537-05-31" yields 31 May 2001. -/
theorem gpapa_extract_date_invalid :
    (∀ (input : Option CStr) (d : GDate), gpapa_extract_date input = some d →
      validCalendarDate d.day d.month d.year = true) ∧
    (∀ (maxFields : Nat) (line : CStr) (key : GpapaKey) (d : GDate),
      (extract_key maxFields line).1 = some key →
      key.CreationDate = some d ∨ key.ExpirationDate = some d →
        validCalendarDate d.day d.month d.year = true) ∧
    gpapa_extract_date (some "0000-00-00".toList) = none ∧
    (validCalendarDate 287 5 2001 = false ∧
      gpapa_extract_date (some "2001-05-287".toList)
        = some { day := 31, month := 5, year := 2001 }) ∧
    gpapa_extract_date (some "67537-05-31".toList)
      = some { day := 31, month := 5, year := 2001 } := by
  refine ⟨gpapa_extract_date_valid, ?_, by decide, ⟨by decide, by decide⟩, by decide⟩
  intro maxFields line key d hkey hd
  simp only [extract_key] at hkey
  split at hkey
  · cases hkey
  · simp only [Option.some.injEq] at hkey
    subst hkey
    rcases hd with hd | hd
    · exact gpapa_extract_date_valid (some ((tokenize maxFields line).getD 5 [])) d hd
    · exact gpapa_extract_date_valid (some ((tokenize maxFields line).getD 6 [])) d hd

/-! ## Quoting for the keyserver (C20) -/

theorem hexchrAt_of_lt (n : Nat) (h : n < 16) :
    hexchrAt (n : Int) = some (Nat.digitChar n) := by
  have h1 : (0 : Int) ≤ (n : Int) ∧ (n : Int) < 16 := by omega
  simp only [hexchrAt, if_pos h1, Int.toNat_ofNat]
  interval_cases n <;> rfl

theorem quoteKeeps_natCast (c : Char) : quoteKeeps (c.toNat : Int) = isAsciiAlnum c := by
  have hA : 'A'.toNat = 65 := rfl
  have hZ : 'Z'.toNat = 90 := rfl
  have ha : 'a'.toNat = 97 := rfl
  have hz : 'z'.toNat = 122 := rfl
  have h0 : '0'.toNat = 48 := rfl
  have h9 : '9'.toNat = 57 := rfl
  simp only [quoteKeeps, isAsciiAlnum, hA, hZ, ha, hz, h0, h9]
  rw [Bool.eq_iff_iff]
  simp only [Bool.or_eq_true, Bool.and_eq_true, decide_eq_true_eq]
  omega

/-- Where every byte reads as its own value the code computes the percent-encoding. -/
theorem gpapa_http_quote_of_value (charSigned : Bool) (s : CStr)
    (hv : ∀ c ∈ s, gcharValue charSigned c = (c.toNat : Int))
    (hb : ∀ c ∈ s, c.toNat ≤ 255) :
    gpapa_http_quote charSigned s = some (percentEncode s) := by
  induction s with
  | nil => rfl
  | cons c p ih =>
    have ihp := ih (fun d hd => hv d (by simp [hd])) (fun d hd => hb d (by simp [hd]))
    have hc := hv c (by simp)
    have hcb := hb c (by simp)
    have hpe : percentEncode (c :: p) = percentEncodeByte c ++ percentEncode p := by
      simp [percentEncode]
    rw [hpe]
    by_cases hk : isAsciiAlnum c = true
    · have hk' : quoteKeeps (gcharValue charSigned c) = true := by
        rw [hc, quoteKeeps_natCast]; exact hk
      simp only [gpapa_http_quote, hk', if_true, ihp, Option.map_some', percentEncodeByte, hk,
        List.singleton_append]
    · have hk' : ¬ quoteKeeps (gcharValue charSigned c) = true := by
        rw [hc, quoteKeeps_natCast]; exact hk
      have ehi : (c.toNat : Int).tdiv 16 = ((c.toNat / 16 : Nat) : Int) := rfl
      have elo : (c.toNat : Int).tmod 16 = ((c.toNat % 16 : Nat) : Int) := rfl
      have hhi : hexchrAt ((c.toNat : Int).tdiv 16) = some (Nat.digitChar (c.toNat / 16)) := by
        rw [ehi]
        exact hexchrAt_of_lt _ (by omega)
      have hlo : hexchrAt ((c.toNat : Int).tmod 16) = some (Nat.digitChar (c.toNat % 16)) := by
        rw [elo]
        exact hexchrAt_of_lt _ (by omega)
      rw [gpapa_http_quote, if_neg hk', hc, hhi, hlo, ihp]
      simp only [percentEncodeByte, if_neg hk]
      rfl

theorem percentEncode_chars (s : CStr) (hb : ∀ c ∈ s, c.toNat ≤ 255) :
    ∀ c ∈ percentEncode s, c = '%' ∨ isAsciiAlnum c = true := by
  have hdig : ∀ n, n < 16 → isAsciiAlnum (Nat.digitChar n) = true := by
    intro n hn
    interval_cases n <;> rfl
  intro c hc
  simp only [percentEncode, List.mem_flatten, List.mem_map] at hc
  obtain ⟨l, ⟨b, hbs, rfl⟩, hcl⟩ := hc
  have hbb := hb b hbs
  unfold percentEncodeByte at hcl
  split at hcl
  · next hk =>
    simp only [List.mem_singleton] at hcl
    rw [hcl]; exact Or.inr hk
  · simp only [List.mem_cons, List.mem_singleton, List.not_mem_nil, or_false] at hcl
    rcases hcl with rfl | rfl | rfl
    · exact Or.inl rfl
    · exact Or.inr (hdig _ (by omega))
    · exact Or.inr (hdig _ (Nat.mod_lt _ (by decide)))

/-- C20. Where plain `char` is unsigned, and for bytes below 128 everywhere,
`gpapa_http_quote` is the concatenation over the bytes of the string of the
byte itself when it lies in `[A-Za-z0-9]` and otherwise of `'%'` and the two
hexadecimal digits of its value, high nibble first; the output holds only
characters of `[A-Za-z0-9%]`, and "hello world!" quotes to "hello%20world%21".
Where plain `char` is signed, a byte of 128 or more reads as a negative number
and `hexchr` is indexed below its first element: for the byte 233 no quoted
string is defined, where the claim asks for "%e9". -/
theorem gpapa_http_quote_bytes :
    (∀ s : CStr, (∀ c ∈ s, 1 ≤ c.toNat ∧ c.toNat ≤ 255) →
      gpapa_http_quote false s = some (percentEncode s)) ∧
    (∀ s : CStr, (∀ c ∈ s, 1 ≤ c.toNat ∧ c.toNat ≤ 127) →
      gpapa_http_quote true s = some (percentEncode s)) ∧
    (∀ s : CStr, (∀ c ∈ s, 1 ≤ c.toNat ∧ c.toNat ≤ 255) →
      ∀ c ∈ percentEncode s, c = '%' ∨ isAsciiAlnum c = true) ∧
    gpapa_http_quote true "hello world!".toList = some "hello%20world%21".toList ∧
    gpapa_http_quote false "hello world!".toList = some "hello%20world%21".toList ∧
    percentEncode [Char.ofNat 233] = "%e9".toList ∧
    gpapa_http_quote false [Char.ofNat 233] = some "%e9".toList ∧
    gpapa_http_quote true [Char.ofNat 233] = none := by
  refine ⟨?_, ?_, ?_, by decide, by decide, by decide, by decide, by decide⟩
  · intro s hs
    apply gpapa_http_quote_of_value false s
    · intro c _
      simp [gcharValue]
    · intro c hc
      exact (hs c hc).2
  · intro s hs
    apply gpapa_http_quote_of_value true s
    · intro c hc
      have := (hs c hc).2
      simp only [gcharValue, true_and]
      rw [if_neg (by omega)]
    · intro c hc
      have := (hs c hc).2
      omega
  · intro s hs
    exact percentEncode_chars s (fun c hc => (hs c hc).2)

/-! ## `g_list_sort` is a stable merge sort -/

theorem foldl_preserves {σ β γ : Type} (f : σ → β → σ) (proj : σ → γ)
    (h : ∀ s b, proj (f s b) = proj s) : ∀ (l : List β) (s : σ), proj (l.foldl f s) = proj s := by
  intro l
  induction l with
  | nil => intro s; rfl
  | cons b l ih => intro s; rw [List.foldl_cons, ih, h]

theorem linecallback_refresh_sec_frame (env : Gnupg) (st : GpapaState) (d : Delivery) :
    (linecallback_refresh_sec env st d).PubRing = st.PubRing ∧
    (linecallback_refresh_sec env st d).pubring_initialized = st.pubring_initialized ∧
    (linecallback_refresh_sec env st d).secring_initialized = st.secring_initialized ∧
    (linecallback_refresh_sec env st d).gnupgCalls = st.gnupgCalls ∧
    (linecallback_refresh_sec env st d).lastPubKey = st.lastPubKey ∧
    (linecallback_refresh_sec env st d).gpg_program = st.gpg_program := by
  unfold linecallback_refresh_sec
  cases d.line with
  | none => exact ⟨rfl, rfl, rfl, rfl, rfl, rfl⟩
  | some line =>
    simp only
    split_ifs <;> exact ⟨rfl, rfl, rfl, rfl, rfl, rfl⟩

theorem linecallback_refresh_pub_frame (env : Gnupg) (st : GpapaState) (d : Delivery) :
    (linecallback_refresh_pub env st d).SecRing = st.SecRing ∧
    (linecallback_refresh_pub env st d).pubring_initialized = st.pubring_initialized ∧
    (linecallback_refresh_pub env st d).secring_initialized = st.secring_initialized ∧
    (linecallback_refresh_pub env st d).gnupgCalls = st.gnupgCalls ∧
    (linecallback_refresh_pub env st d).gpg_program = st.gpg_program := by
  unfold linecallback_refresh_pub
  cases d.line with
  | none => exact ⟨rfl, rfl, rfl, rfl, rfl⟩
  | some line =>
    simp only
    split_ifs
    · exact ⟨rfl, rfl, rfl, rfl, rfl⟩
    · exact ⟨rfl, rfl, rfl, rfl, rfl⟩
    · split
      · split <;> exact ⟨rfl, rfl, rfl, rfl, rfl⟩
      · exact ⟨rfl, rfl, rfl, rfl, rfl⟩
    · exact ⟨rfl, rfl, rfl, rfl, rfl⟩

/-- What `gpapa_refresh_secret_keyring` leaves and what it sets. -/
theorem gpapa_refresh_secret_keyring_frame (env : Gnupg) (st : GpapaState) :
    (gpapa_refresh_secret_keyring env st).PubRing = st.PubRing ∧
    (gpapa_refresh_secret_keyring env st).pubring_initialized = st.pubring_initialized ∧
    (gpapa_refresh_secret_keyring env st).secring_initialized = true ∧
    (gpapa_refresh_secret_keyring env st).gnupgCalls = st.gnupgCalls ++ [listSecretKeysArgv] ∧
    (gpapa_refresh_secret_keyring env st).lastPubKey = st.lastPubKey ∧
    (gpapa_refresh_secret_keyring env st).gpg_program = st.gpg_program := by
  simp only [gpapa_refresh_secret_keyring, gpapa_call_gnupg]
  refine ⟨?_, ?_, ?_, ?_, ?_, ?_⟩
  · rw [foldl_preserves _ (fun s => s.PubRing)
      (fun s b => (linecallback_refresh_sec_frame env s b).1)]
  · rw [foldl_preserves _ (fun s => s.pubring_initialized)
      (fun s b => (linecallback_refresh_sec_frame env s b).2.1)]
  · rw [foldl_preserves _ (fun s => s.secring_initialized)
      (fun s b => (linecallback_refresh_sec_frame env s b).2.2.1)]
  · rw [foldl_preserves _ (fun s => s.gnupgCalls)
      (fun s b => (linecallback_refresh_sec_frame env s b).2.2.2.1)]
  · rw [foldl_preserves _ (fun s => s.lastPubKey)
      (fun s b => (linecallback_refresh_sec_frame env s b).2.2.2.2.1)]
  · rw [foldl_preserves _ (fun s => s.gpg_program)
      (fun s b => (linecallback_refresh_sec_frame env s b).2.2.2.2.2)]

theorem gpapa_refresh_public_keyring_eq (env : Gnupg) (st : GpapaState) :
    gpapa_refresh_public_keyring env st =
      gpapa_refresh_secret_keyring env (afterPublicListing env st) := rfl

theorem afterPublicListing_frame (env : Gnupg) (st : GpapaState) :
    (afterPublicListing env st).PubRing =
      g_list_sort (deliveredPublicRing env st) compare_public_keys ∧
    (afterPublicListing env st).SecRing = [] ∧
    (afterPublicListing env st).pubring_initialized = true ∧
    (afterPublicListing env st).gnupgCalls = st.gnupgCalls ++ [listKeysArgv] ∧
    (afterPublicListing env st).gpg_program = st.gpg_program := by
  simp only [afterPublicListing, deliveredPublicRing, gpapa_call_gnupg]
  refine ⟨trivial, ?_, ?_, ?_, ?_⟩
  · rw [foldl_preserves _ (fun s => s.SecRing)
      (fun s b => (linecallback_refresh_pub_frame env s b).1)]
  · rw [foldl_preserves _ (fun s => s.pubring_initialized)
      (fun s b => (linecallback_refresh_pub_frame env s b).2.1)]
  · rw [foldl_preserves _ (fun s => s.gnupgCalls)
      (fun s b => (linecallback_refresh_pub_frame env s b).2.2.2.1)]
  · rw [foldl_preserves _ (fun s => s.gpg_program)
      (fun s b => (linecallback_refresh_pub_frame env s b).2.2.2.2)]

/-- The scan of `gpapa_get_public_key_by_ID` stops at the first entry that has
the requested short ID or has no short ID at all, and returns that entry. -/
theorem scanPublicRing_eq_find (keyID : CStr) (ring : List GpapaPublicKey) :
    scanPublicRing keyID ring =
      ring.find? (fun e => decide (shortIDOf e = none ∨ shortIDOf e = some keyID)) := by
  induction ring with
  | nil => rfl
  | cons p g ih =>
    unfold scanPublicRing
    cases hk : p.key with
    | none => simp [List.find?, shortIDOf, hk]
    | some key =>
      cases hid : key.KeyID with
      | none => simp [List.find?, shortIDOf, hk, hid]
      | some id =>
        by_cases he : id = keyID
        · simp [List.find?, shortIDOf, hk, hid, he]
        · simp [List.find?, shortIDOf, hk, hid, he, ih]

theorem scanSecretRing_eq_find (keyID : CStr) (ring : List GpapaSecretKey) :
    scanSecretRing keyID ring =
      ring.find? (fun e =>
        decide (secretShortIDOf e = none ∨ secretShortIDOf e = some keyID)) := by
  induction ring with
  | nil => rfl
  | cons p g ih =>
    unfold scanSecretRing
    cases hk : p.key with
    | none => simp [List.find?, secretShortIDOf, hk]
    | some key =>
      cases hid : key.KeyID with
      | none => simp [List.find?, secretShortIDOf, hk, hid]
      | some id =>
        by_cases he : id = keyID
        · simp [List.find?, secretShortIDOf, hk, hid, he]
        · simp [List.find?, secretShortIDOf, hk, hid, he, ih]

theorem find_congr_on {α : Type} (p q : α → Bool) (l : List α) (h : ∀ a ∈ l, p a = q a) :
    l.find? p = l.find? q := by
  induction l with
  | nil => rfl
  | cons a l ih =>
    have ha := h a (by simp)
    have hl := ih (fun b hb => h b (by simp [hb]))
    simp only [List.find?, ha, hl]

/-- On a ring whose entries all have a short ID the scan returns the first entry
with the requested short ID. -/
theorem scanPublicRing_of_all_ids (keyID : CStr) (ring : List GpapaPublicKey)
    (h : ∀ e ∈ ring, shortIDOf e ≠ none) :
    scanPublicRing keyID ring = ring.find? (fun e => decide (shortIDOf e = some keyID)) := by
  rw [scanPublicRing_eq_find]
  apply find_congr_on
  intro e he
  have := h e he
  simp [this]

theorem scanSecretRing_of_all_ids (keyID : CStr) (ring : List GpapaSecretKey)
    (h : ∀ e ∈ ring, secretShortIDOf e ≠ none) :
    scanSecretRing keyID ring =
      ring.find? (fun e => decide (secretShortIDOf e = some keyID)) := by
  rw [scanSecretRing_eq_find]
  apply find_congr_on
  intro e he
  have := h e he
  simp [this]

/-- C17. On a public ring whose entries all have a short ID, a secret record
whose short ID is that of a public entry yields a secret entry that holds the
key of the first such public entry, not the key extracted from the secret line.
But the lookup stops at the first public entry without a key or without a short
ID and returns it: with malformed `"pub:"` lines delivered around the matching
record, the secret entry ends up with no key at all. -/
theorem secret_entry_aliases_public :
    (∀ (ring : List GpapaPublicKey) (key : GpapaKey) (keyID : CStr) (p : GpapaPublicKey),
      key.KeyID = some keyID → (∀ e ∈ ring, shortIDOf e ≠ none) →
      ring.find? (fun e => decide (shortIDOf e = some keyID)) = some p →
        secretEntryKey ring (some key) = p.key) ∧
    (∀ (ring : List GpapaPublicKey) (key : GpapaKey) (keyID : CStr) (p : GpapaPublicKey),
      key.KeyID = some keyID →
      ring.find? (fun e => decide (shortIDOf e = none ∨ shortIDOf e = some keyID)) = some p →
        secretEntryKey ring (some key) = p.key) ∧
    ((gpapa_refresh_public_keyring
        (scriptedGnupg 20
          ["pub:".toList,
            "pub:u:1024:17:5DE249965B0358A2:1999-03-15::59:f:Alice:".toList,
            "pub:".toList]
          ["sec:u:1024:17:5DE249965B0358A2:1999-03-15::59:f:Alice:".toList])
        initialState).PubRing.map shortIDOf = [none, some "5B0358A2".toList, none] ∧
      (extract_key 20 "sec:u:1024:17:5DE249965B0358A2:1999-03-15::59:f:Alice:".toList).1.map
        GpapaKey.KeyID = some (some "5B0358A2".toList) ∧
      (gpapa_refresh_public_keyring
        (scriptedGnupg 20
          ["pub:".toList,
            "pub:u:1024:17:5DE249965B0358A2:1999-03-15::59:f:Alice:".toList,
            "pub:".toList]
          ["sec:u:1024:17:5DE249965B0358A2:1999-03-15::59:f:Alice:".toList])
        initialState).SecRing = [{ key := none }]) := by
  refine ⟨?_, ?_, by decide⟩
  · intro ring key keyID p hid hall hfind
    have hne : ring ≠ [] := by
      rintro rfl
      simp at hfind
    simp only [secretEntryKey, hid, if_pos hne, scanPublicRing_of_all_ids keyID ring hall, hfind]
  · intro ring key keyID p hid hfind
    have hne : ring ≠ [] := by
      rintro rfl
      simp at hfind
    simp only [secretEntryKey, hid, if_pos hne, scanPublicRing_eq_find, hfind]

/-- C18. Once the ring is initialized, `gpapa_get_public_key_by_ID` and
`gpapa_get_secret_key_by_ID` leave the state alone and return the first entry
that has the requested short ID or has no short ID at all. On a ring whose
entries all have a short ID this is the first entry with the requested short
ID, and nothing exactly when there is none. But an entry without a key (or
without a short ID) ends the scan and is returned: behind a malformed `"pub:"`
line the entry with the requested short ID is not found, and a request for an
ID that no entry has returns the entry without key. -/
theorem get_key_by_ID :
    (∀ (env : Gnupg) (st : GpapaState) (keyID : CStr), st.pubring_initialized = true →
      gpapa_get_public_key_by_ID env st keyID =
        (st, st.PubRing.find?
          (fun e => decide (shortIDOf e = none ∨ shortIDOf e = some keyID)))) ∧
    (∀ (env : Gnupg) (st : GpapaState) (keyID : CStr), st.secring_initialized = true →
      gpapa_get_secret_key_by_ID env st keyID =
        (st, st.SecRing.find?
          (fun e => decide (secretShortIDOf e = none ∨ secretShortIDOf e = some keyID)))) ∧
    (∀ (env : Gnupg) (st : GpapaState) (keyID : CStr), st.pubring_initialized = true →
      (∀ e ∈ st.PubRing, shortIDOf e ≠ none) →
        (gpapa_get_public_key_by_ID env st keyID).2 =
            st.PubRing.find? (fun e => decide (shortIDOf e = some keyID)) ∧
          ((gpapa_get_public_key_by_ID env st keyID).2 = none ↔
            ∀ e ∈ st.PubRing, shortIDOf e ≠ some keyID)) ∧
    (∀ (env : Gnupg) (st : GpapaState) (keyID : CStr), st.secring_initialized = true →
      (∀ e ∈ st.SecRing, secretShortIDOf e ≠ none) →
        (gpapa_get_secret_key_by_ID env st keyID).2 =
            st.SecRing.find? (fun e => decide (secretShortIDOf e = some keyID)) ∧
          ((gpapa_get_secret_key_by_ID env st keyID).2 = none ↔
            ∀ e ∈ st.SecRing, secretShortIDOf e ≠ some keyID)) ∧
    ((gpapa_refresh_public_keyring
        (scriptedGnupg 20
          ["pub:".toList,
            "pub:u:1024:17:5DE249965B0358A2:1999-03-15::59:f:Alice:".toList,
            "pub:".toList] [])
        initialState).PubRing.map shortIDOf = [none, some "5B0358A2".toList, none] ∧
      ((gpapa_get_public_key_by_ID (scriptedGnupg 20 [] [])
        (gpapa_refresh_public_keyring
          (scriptedGnupg 20
            ["pub:".toList,
              "pub:u:1024:17:5DE249965B0358A2:1999-03-15::59:f:Alice:".toList,
              "pub:".toList] [])
          initialState) "5B0358A2".toList).2.map shortIDOf = some none) ∧
      ((gpapa_get_public_key_by_ID (scriptedGnupg 20 [] [])
        (gpapa_refresh_public_keyring
          (scriptedGnupg 20
            ["pub:".toList,
              "pub:u:1024:17:5DE249965B0358A2:1999-03-15::59:f:Alice:".toList,
              "pub:".toList] [])
          initialState) "FFFFFFFF".toList).2.map shortIDOf = some none)) := by
  refine ⟨?_, ?_, ?_, ?_, by decide⟩
  · intro env st keyID hinit
    simp only [gpapa_get_public_key_by_ID, ensurePublic, hinit, scanPublicRing_eq_find]
    rfl
  · intro env st keyID hinit
    simp only [gpapa_get_secret_key_by_ID, ensureSecret, hinit, scanSecretRing_eq_find]
    rfl
  · intro env st keyID hinit hall
    have e : (gpapa_get_public_key_by_ID env st keyID).2 =
        st.PubRing.find? (fun e => decide (shortIDOf e = some keyID)) := by
      simp only [gpapa_get_public_key_by_ID, ensurePublic, hinit]
      exact scanPublicRing_of_all_ids keyID st.PubRing hall
    refine ⟨e, ?_⟩
    rw [e, List.find?_eq_none]
    simp
  · intro env st keyID hinit hall
    have e : (gpapa_get_secret_key_by_ID env st keyID).2 =
        st.SecRing.find? (fun e => decide (secretShortIDOf e = some keyID)) := by
      simp only [gpapa_get_secret_key_by_ID, ensureSecret, hinit]
      exact scanSecretRing_of_all_ids keyID st.SecRing hall
    refine ⟨e, ?_⟩
    rw [e, List.find?_eq_none]
    simp

/-! ## The lazy refresh (C19) -/

theorem gpapa_refresh_public_keyring_flags (env : Gnupg) (st : GpapaState) :
    (gpapa_refresh_public_keyring env st).pubring_initialized = true ∧
    (gpapa_refresh_public_keyring env st).secring_initialized = true ∧
    (gpapa_refresh_public_keyring env st).gnupgCalls =
      st.gnupgCalls ++ [listKeysArgv, listSecretKeysArgv] := by
  have hs := gpapa_refresh_secret_keyring_frame env (afterPublicListing env st)
  have ha := afterPublicListing_frame env st
  rw [gpapa_refresh_public_keyring_eq]
  refine ⟨?_, hs.2.2.1, ?_⟩
  · rw [hs.2.1, ha.2.2.1]
  · rw [hs.2.2.2.1, ha.2.2.2.1, List.append_assoc]
    rfl

theorem ensurePublic_of_initialized (env : Gnupg) (st : GpapaState)
    (h : st.pubring_initialized = true) : ensurePublic env st = st := by
  simp [ensurePublic, h]

theorem ensureSecret_of_initialized (env : Gnupg) (st : GpapaState)
    (h : st.secring_initialized = true) : ensureSecret env st = st := by
  simp [ensureSecret, h]

theorem ensurePublic_of_not (env : Gnupg) (st : GpapaState)
    (h : st.pubring_initialized = false) :
    ensurePublic env st = gpapa_refresh_public_keyring env st := by
  simp [ensurePublic, h]

theorem ensureSecret_of_not (env : Gnupg) (st : GpapaState)
    (h : st.secring_initialized = false) :
    ensureSecret env st = gpapa_refresh_secret_keyring env st := by
  simp [ensureSecret, h]

theorem cacheStep_publicQuery (env : Gnupg) (st : GpapaState) (op : CacheOp)
    (hop : isPublicQuery op = true) : cacheStep env st op = ensurePublic env st := by
  cases op <;> first | rfl | simp [isPublicQuery] at hop

theorem cacheStep_secretQuery (env : Gnupg) (st : GpapaState) (op : CacheOp)
    (hop : isSecretQuery op = true) : cacheStep env st op = ensureSecret env st := by
  cases op <;> first | rfl | simp [isSecretQuery] at hop

theorem ensurePublic_flags (env : Gnupg) (st : GpapaState) :
    (ensurePublic env st).pubring_initialized = true ∧
    (st.secring_initialized = true → (ensurePublic env st).secring_initialized = true) := by
  cases h : st.pubring_initialized with
  | true => rw [ensurePublic_of_initialized env st h]; exact ⟨h, fun hs => hs⟩
  | false =>
    rw [ensurePublic_of_not env st h]
    exact ⟨(gpapa_refresh_public_keyring_flags env st).1,
      fun _ => (gpapa_refresh_public_keyring_flags env st).2.1⟩

theorem ensureSecret_flags (env : Gnupg) (st : GpapaState) :
    (ensureSecret env st).secring_initialized = true ∧
    (ensureSecret env st).pubring_initialized = st.pubring_initialized := by
  cases h : st.secring_initialized with
  | true => rw [ensureSecret_of_initialized env st h]; exact ⟨h, rfl⟩
  | false =>
    rw [ensureSecret_of_not env st h]
    exact ⟨(gpapa_refresh_secret_keyring_frame env st).2.2.1,
      (gpapa_refresh_secret_keyring_frame env st).2.1⟩

/-- No operation clears an initialized flag. -/
theorem cacheStep_flags (env : Gnupg) (st : GpapaState) (op : CacheOp) :
    (st.pubring_initialized = true → (cacheStep env st op).pubring_initialized = true) ∧
    (st.secring_initialized = true → (cacheStep env st op).secring_initialized = true) := by
  cases op with
  | refresh_public =>
    exact ⟨fun _ => (gpapa_refresh_public_keyring_flags env st).1,
      fun _ => (gpapa_refresh_public_keyring_flags env st).2.1⟩
  | refresh_secret =>
    refine ⟨fun h => ?_, fun _ => (gpapa_refresh_secret_keyring_frame env st).2.2.1⟩
    show (gpapa_refresh_secret_keyring env st).pubring_initialized = true
    rw [(gpapa_refresh_secret_keyring_frame env st).2.1]
    exact h
  | public_count => exact ⟨fun _ => (ensurePublic_flags env st).1, (ensurePublic_flags env st).2⟩
  | public_by_index idx =>
    exact ⟨fun _ => (ensurePublic_flags env st).1, (ensurePublic_flags env st).2⟩
  | public_by_ID keyID =>
    exact ⟨fun _ => (ensurePublic_flags env st).1, (ensurePublic_flags env st).2⟩
  | secret_count =>
    refine ⟨fun h => ?_, fun _ => (ensureSecret_flags env st).1⟩
    show (ensureSecret env st).pubring_initialized = true
    rw [(ensureSecret_flags env st).2]; exact h
  | secret_by_index idx =>
    refine ⟨fun h => ?_, fun _ => (ensureSecret_flags env st).1⟩
    show (ensureSecret env st).pubring_initialized = true
    rw [(ensureSecret_flags env st).2]; exact h
  | secret_by_ID keyID =>
    refine ⟨fun h => ?_, fun _ => (ensureSecret_flags env st).1⟩
    show (ensureSecret env st).pubring_initialized = true
    rw [(ensureSecret_flags env st).2]; exact h
  | fini => exact ⟨fun h => h, fun h => h⟩
  | init gpg => exact ⟨fun h => h, fun h => h⟩

theorem cacheRun_flags (env : Gnupg) (ops : List CacheOp) :
    ∀ st : GpapaState,
      (st.pubring_initialized = true → (cacheRun env st ops).pubring_initialized = true) ∧
      (st.secring_initialized = true → (cacheRun env st ops).secring_initialized = true) := by
  induction ops with
  | nil => intro st; exact ⟨fun h => h, fun h => h⟩
  | cons op ops ih =>
    intro st
    have h1 := cacheStep_flags env st op
    have h2 := ih (cacheStep env st op)
    exact ⟨fun h => h2.1 (h1.1 h), fun h => h2.2 (h1.2 h)⟩

theorem cacheRun_append (env : Gnupg) (st : GpapaState) (ops1 ops2 : List CacheOp) :
    cacheRun env st (ops1 ++ ops2) = cacheRun env (cacheRun env st ops1) ops2 := by
  simp [cacheRun, List.foldl_append]

/-- C19. A query (count, by index, by ID) on a ring whose initialized flag is
set leaves the whole state as it is: no tool invocation, both rings unchanged.
A query on an uninitialized ring performs exactly one refresh of that ring: for
the public ring one public listing followed by the secret listing that belongs
to it, for the secret ring one secret listing. No operation (refresh, query,
`gpapa_fini`, `gpapa_init`) clears a flag that is set, so in every sequence of
operations every query on a ring that follows an earlier query on that ring
changes nothing: each ring is refreshed lazily at most once. -/
theorem lazy_refresh_once :
    (∀ (env : Gnupg) (st : GpapaState) (op : CacheOp), isPublicQuery op = true →
      st.pubring_initialized = true → cacheStep env st op = st) ∧
    (∀ (env : Gnupg) (st : GpapaState) (op : CacheOp), isSecretQuery op = true →
      st.secring_initialized = true → cacheStep env st op = st) ∧
    (∀ (env : Gnupg) (st : GpapaState) (op : CacheOp), isPublicQuery op = true →
      st.pubring_initialized = false →
        cacheStep env st op = gpapa_refresh_public_keyring env st ∧
        (cacheStep env st op).gnupgCalls =
          st.gnupgCalls ++ [listKeysArgv, listSecretKeysArgv]) ∧
    (∀ (env : Gnupg) (st : GpapaState) (op : CacheOp), isSecretQuery op = true →
      st.secring_initialized = false →
        cacheStep env st op = gpapa_refresh_secret_keyring env st ∧
        (cacheStep env st op).gnupgCalls = st.gnupgCalls ++ [listSecretKeysArgv]) ∧
    (∀ (env : Gnupg) (st : GpapaState) (ops : List CacheOp),
      (st.pubring_initialized = true → (cacheRun env st ops).pubring_initialized = true) ∧
      (st.secring_initialized = true → (cacheRun env st ops).secring_initialized = true)) ∧
    (∀ (env : Gnupg) (st : GpapaState) (ops1 ops2 : List CacheOp) (op1 op2 : CacheOp),
      isPublicQuery op1 = true → isPublicQuery op2 = true →
        cacheStep env (cacheRun env st (ops1 ++ op1 :: ops2)) op2 =
          cacheRun env st (ops1 ++ op1 :: ops2)) ∧
    (∀ (env : Gnupg) (st : GpapaState) (ops1 ops2 : List CacheOp) (op1 op2 : CacheOp),
      isSecretQuery op1 = true → isSecretQuery op2 = true →
        cacheStep env (cacheRun env st (ops1 ++ op1 :: ops2)) op2 =
          cacheRun env st (ops1 ++ op1 :: ops2)) := by
  refine ⟨?_, ?_, ?_, ?_, ?_, ?_, ?_⟩
  · intro env st op hop hinit
    rw [cacheStep_publicQuery env st op hop, ensurePublic_of_initialized env st hinit]
  · intro env st op hop hinit
    rw [cacheStep_secretQuery env st op hop, ensureSecret_of_initialized env st hinit]
  · intro env st op hop hinit
    rw [cacheStep_publicQuery env st op hop, ensurePublic_of_not env st hinit]
    exact ⟨rfl, (gpapa_refresh_public_keyring_flags env st).2.2⟩
  · intro env st op hop hinit
    rw [cacheStep_secretQuery env st op hop, ensureSecret_of_not env st hinit]
    exact ⟨rfl, (gpapa_refresh_secret_keyring_frame env st).2.2.2.1⟩
  · intro env st ops
    exact cacheRun_flags env ops st
  · intro env st ops1 ops2 op1 op2 h1 h2
    have hrun : cacheRun env st (ops1 ++ op1 :: ops2) =
        cacheRun env (cacheStep env (cacheRun env st ops1) op1) ops2 := by
      rw [cacheRun_append]; rfl
    have hflag : (cacheRun env st (ops1 ++ op1 :: ops2)).pubring_initialized = true := by
      rw [hrun]
      apply (cacheRun_flags env ops2 _).1
      rw [cacheStep_publicQuery env _ op1 h1]
      exact (ensurePublic_flags env _).1
    rw [cacheStep_publicQuery env _ op2 h2, ensurePublic_of_initialized env _ hflag]
  · intro env st ops1 ops2 op1 op2 h1 h2
    have hrun : cacheRun env st (ops1 ++ op1 :: ops2) =
        cacheRun env (cacheStep env (cacheRun env st ops1) op1) ops2 := by
      rw [cacheRun_append]; rfl
    have hflag : (cacheRun env st (ops1 ++ op1 :: ops2)).secring_initialized = true := by
      rw [hrun]
      apply (cacheRun_flags env ops2 _).2
      rw [cacheStep_secretQuery env _ op1 h1]
      exact (ensureSecret_flags env _).1
    rw [cacheStep_secretQuery env _ op2 h2, ensureSecret_of_initialized env _ hflag]

/-! ## The public ring is filled only by its refresh -/

theorem cacheStep_filled_initialized (env : Gnupg) (st : GpapaState) (op : CacheOp)
    (h : st.PubRing ≠ [] → st.pubring_initialized = true) :
    (cacheStep env st op).PubRing ≠ [] → (cacheStep env st op).pubring_initialized = true := by
  have hsec : (gpapa_refresh_secret_keyring env st).PubRing ≠ [] →
      (gpapa_refresh_secret_keyring env st).pubring_initialized = true := by
    rw [(gpapa_refresh_secret_keyring_frame env st).1,
      (gpapa_refresh_secret_keyring_frame env st).2.1]
    exact h
  have hes : (ensureSecret env st).PubRing ≠ [] →
      (ensureSecret env st).pubring_initialized = true := by
    cases hi : st.secring_initialized with
    | true => rw [ensureSecret_of_initialized env st hi]; exact h
    | false => rw [ensureSecret_of_not env st hi]; exact hsec
  cases op with
  | refresh_public => exact fun _ => (gpapa_refresh_public_keyring_flags env st).1
  | refresh_secret => exact hsec
  | public_count => exact fun _ => (ensurePublic_flags env st).1
  | public_by_index idx => exact fun _ => (ensurePublic_flags env st).1
  | public_by_ID keyID => exact fun _ => (ensurePublic_flags env st).1
  | secret_count => exact hes
  | secret_by_index idx => exact hes
  | secret_by_ID keyID => exact hes
  | fini => intro hne; exact absurd rfl hne
  | init gpg => exact h

/-- In every state reached from the initial one a non-empty public ring is an
initialized one, so the lookup made by `linecallback_refresh_sec` never starts
a refresh of its own. -/
theorem cacheRun_filled_initialized (env : Gnupg) (ops : List CacheOp) :
    ∀ st : GpapaState, (st.PubRing ≠ [] → st.pubring_initialized = true) →
      (cacheRun env st ops).PubRing ≠ [] → (cacheRun env st ops).pubring_initialized = true := by
  induction ops with
  | nil => intro st h; exact h
  | cons op ops ih =>
    intro st h
    exact ih (cacheStep env st op) (cacheStep_filled_initialized env st op h)

/-! ## The comparison of ring entries (C26) -/

theorem compare_public_keys_of_none (a b : GpapaPublicKey)
    (h : userIDOf a = none ∨ userIDOf b = none) : compare_public_keys a b = 0 := by
  unfold compare_public_keys
  unfold userIDOf at h
  cases ha : a.key with
  | none => rfl
  | some ka =>
    cases hb : b.key with
    | none => rfl
    | some kb =>
      rw [ha, hb] at h
      simp only at h
      cases hua : ka.UserID with
      | none => simp only [hua]
      | some ua =>
        cases hub : kb.UserID with
        | none => simp only [hua, hub]
        | some ub =>
          rw [hua, hub] at h
          rcases h with h | h <;> cases h

theorem compare_public_keys_of_some (a b : GpapaPublicKey) (ua ub : CStr)
    (ha : userIDOf a = some ua) (hb : userIDOf b = some ub) :
    compare_public_keys a b = strcasecmp ua ub := by
  unfold compare_public_keys
  unfold userIDOf at ha hb
  cases hka : a.key with
  | none => rw [hka] at ha; cases ha
  | some ka =>
    cases hkb : b.key with
    | none => rw [hkb] at hb; cases hb
    | some kb =>
      rw [hka] at ha
      rw [hkb] at hb
      simp only at ha hb
      simp only [ha, hb]

/-- C26. `compare_public_keys` returns 0 whenever either entry lacks a key or a
user ID, and otherwise the case-insensitive comparison `strcasecmp` of the two
user IDs; it is not transitive: on an entry of Bob, an entry without key and an
entry of Alice it returns 0 on the first pair and on the second pair, but not
on Bob and Alice. `compare_secret_keys` does the same on secret entries. -/
theorem compare_public_keys_not_transitive :
    (∀ a b : GpapaPublicKey, userIDOf a = none ∨ userIDOf b = none →
      compare_public_keys a b = 0) ∧
    (∀ (a b : GpapaPublicKey) (ua ub : CStr), userIDOf a = some ua → userIDOf b = some ub →
      compare_public_keys a b = strcasecmp ua ub) ∧
    (∃ a b c : GpapaPublicKey,
      userIDOf a = some "Bob".toList ∧ userIDOf b = none ∧ userIDOf c = some "Alice".toList ∧
      compare_public_keys a b = 0 ∧ compare_public_keys b c = 0 ∧
      compare_public_keys a c ≠ 0) ∧
    (∀ a b : GpapaSecretKey,
      compare_secret_keys a b =
        compare_public_keys { key := a.key, fingerprint := none }
          { key := b.key, fingerprint := none }) := by
  refine ⟨compare_public_keys_of_none, compare_public_keys_of_some, ?_, fun _ _ => rfl⟩
  refine ⟨{ key := some { gpapa_key_new [] with UserID := some "Bob".toList },
            fingerprint := none },
          { key := none, fingerprint := none },
          { key := some { gpapa_key_new [] with UserID := some "Alice".toList },
            fingerprint := none }, ?_⟩
  decide

/-! ## Stripping HTML tags (C21, C27) -/

theorem afterTagScan_length_le (p : CStr) : (afterTagScan p).length ≤ p.length := by
  induction p with
  | nil => simp [afterTagScan]
  | cons c cs ih =>
    by_cases h : c = '>'
    · simp [afterTagScan, h]
    · simp only [afterTagScan, h, if_false, List.length_cons]
      omega

theorem afterTagScan_nil_iff (p : CStr) : afterTagScan p = [] ↔ '>' ∉ p := by
  induction p with
  | nil => simp [afterTagScan]
  | cons c cs ih =>
    by_cases h : c = '>'
    · simp [afterTagScan, h]
    · have h' : ¬ '>' = c := fun e => h e.symm
      simp only [afterTagScan, h, if_false, ih, List.mem_cons, h', false_or]

theorem afterTagScan_cons (p : CStr) (d : Char) (rest : CStr) (h : afterTagScan p = d :: rest) :
    '>' ∈ p ∧ stripSpans true p = stripSpans false rest ∧ tagsClosed p = tagsClosed rest := by
  induction p with
  | nil => simp [afterTagScan] at h
  | cons c cs ih =>
    by_cases hc : c = '>'
    · simp only [afterTagScan, hc, if_true, List.cons.injEq] at h
      obtain ⟨_, rfl⟩ := h
      subst hc
      refine ⟨by simp, by simp [stripSpans], ?_⟩
      simp [tagsClosed]
    · simp only [afterTagScan, hc, if_false] at h
      obtain ⟨h1, h2, h3⟩ := ih h
      refine ⟨by simp [h1], by simp [stripSpans, hc, h2], ?_⟩
      simp only [tagsClosed, h3, h1, decide_True, ite_self, Bool.true_and]

/-- The loop of `gpapa_dehtml` stores the fragment without its spans, and it
steps over the terminator exactly when some `'<'` has no `'>'` behind it. -/
theorem dehtmlLoop_eq :
    ∀ (fuel : Nat) (p : CStr), p.length ≤ fuel →
      (dehtmlLoop fuel p).text = stripTags p ∧
      (dehtmlLoop fuel p).pastTerminator = !tagsClosed p := by
  intro fuel
  induction fuel with
  | zero =>
    intro p hp
    have : p = [] := List.length_eq_zero.mp (Nat.le_zero.mp hp)
    subst this
    exact ⟨rfl, rfl⟩
  | succ fuel ih =>
    intro p hp
    cases p with
    | nil => exact ⟨rfl, rfl⟩
    | cons c cs =>
      simp only [List.length_cons] at hp
      by_cases hc : c = '<'
      · subst hc
        have hne : ¬ '<' = '>' := by decide
        have hscan : afterTagScan ('<' :: cs) = afterTagScan cs := by
          simp [afterTagScan]
        simp only [dehtmlLoop, if_true, hscan, stripTags, stripSpans, tagsClosed]
        cases hr : afterTagScan cs with
        | nil =>
          have hnot := (afterTagScan_nil_iff cs).mp hr
          refine ⟨?_, ?_⟩
          · simp only
            clear hr ih hp hscan
            induction cs with
            | nil => rfl
            | cons d ds ihd =>
              have hd : ¬ d = '>' := fun e => hnot (by simp [e])
              simp only [stripSpans, hd, if_false]
              exact ihd (fun hm => hnot (by simp [hm]))
          · simp [hnot]
        | cons d rest =>
          obtain ⟨h1, h2, h3⟩ := afterTagScan_cons cs d rest hr
          have hlen := afterTagScan_length_le cs
          rw [hr] at hlen
          simp only [List.length_cons] at hlen
          have := ih rest (by omega)
          simp only [stripTags] at this
          simp only [this.1, this.2, h2, h3, h1, decide_True, Bool.true_and]
          exact ⟨trivial, trivial⟩
      · have := ih cs (by omega)
        simp only [stripTags] at this
        simp only [dehtmlLoop, if_neg hc, stripTags, stripSpans, tagsClosed, this.1, this.2,
          Bool.true_and]
        exact ⟨trivial, trivial⟩

theorem gpapa_dehtml_eq (p : CStr) : gpapa_dehtml p = stripTags p :=
  (dehtmlLoop_eq p.length p (Nat.le_refl _)).1

theorem dehtmlRun_pastTerminator (p : CStr) : (dehtmlRun p).pastTerminator = !tagsClosed p :=
  (dehtmlLoop_eq p.length p (Nat.le_refl _)).2

theorem stripSpans_of_no_open (p : CStr) (h : '<' ∉ p) : stripSpans false p = p := by
  induction p with
  | nil => rfl
  | cons c cs ih =>
    have hc : ¬ c = '<' := fun e => h (by simp [e])
    simp only [stripSpans, hc, if_false]
    rw [ih (fun hm => h (by simp [hm]))]

theorem stripSpans_length_le (inside : Bool) (p : CStr) :
    (stripSpans inside p).length ≤ p.length := by
  induction p generalizing inside with
  | nil => cases inside <;> simp [stripSpans]
  | cons c cs ih =>
    have h1 := ih true
    have h2 := ih false
    cases inside with
    | false =>
      simp only [stripSpans]
      split <;> simp only [List.length_cons] <;> omega
    | true =>
      simp only [stripSpans]
      split <;> simp only [List.length_cons] <;> omega

/-- An opening `'<'` costs the stripped text at least one character. -/
theorem stripSpans_length_lt (p : CStr) (h : '<' ∈ p) :
    (stripSpans false p).length < p.length := by
  induction p with
  | nil => simp at h
  | cons c cs ih =>
    by_cases hc : c = '<'
    · have := stripSpans_length_le true cs
      simp only [stripSpans, hc, if_true, List.length_cons]
      omega
    · have hm : '<' ∈ cs := by
        rcases List.mem_cons.mp h with e | hm
        · exact absurd e.symm hc
        · exact hm
      have := ih hm
      simp only [stripSpans, hc, if_false, List.length_cons]
      omega

/-- C27. `gpapa_dehtml` leaves its buffers: the result buffer has `strlen (p)`
bytes, and on an input without `'<'` the text and its terminator take one byte
more (`"abc"`: 4 bytes stored into 3); the reads step over the terminator of
the input exactly when some `'<'` has no `'>'` behind it (`"a<b"`). Only an
input that holds a `'<'` and closes each one is handled within bounds. -/
theorem gpapa_dehtml_leaves_bounds :
    (∀ p : CStr, '<' ∉ p → dehtmlBytesStored p = dehtmlBufferSize p + 1) ∧
    (∀ p : CStr, (dehtmlRun p).pastTerminator = !tagsClosed p) ∧
    (∀ p : CStr, '<' ∈ p → dehtmlBytesStored p ≤ dehtmlBufferSize p) ∧
    dehtmlBytesStored "abc".toList = 4 ∧ dehtmlBufferSize "abc".toList = 3 ∧
    dehtmlBytesStored [] = 1 ∧ dehtmlBufferSize [] = 0 ∧
    (dehtmlRun "a<b".toList).pastTerminator = true := by
  refine ⟨?_, dehtmlRun_pastTerminator, ?_, by decide, by decide, by decide, by decide,
    by decide⟩
  · intro p hp
    unfold dehtmlBytesStored dehtmlBufferSize
    rw [gpapa_dehtml_eq, stripTags, stripSpans_of_no_open p hp]
  · intro p hp
    have := stripSpans_length_lt p hp
    unfold dehtmlBytesStored dehtmlBufferSize
    rw [gpapa_dehtml_eq, stripTags]
    omega

/-! ## Keyserver error reports (C22, C23) -/

theorem g_strdup_printf_append (pre rest arg : CStr) (h : '%' ∉ pre) :
    g_strdup_printf (pre ++ '%' :: 's' :: rest) arg = pre ++ arg ++ rest := by
  induction pre with
  | nil => simp [g_strdup_printf]
  | cons c cs ih =>
    have hc : ¬ c = '%' := fun e => h (by simp [e])
    have hcs : '%' ∉ cs := fun hm => h (by simp [hm])
    rw [List.cons_append, List.cons_append, List.cons_append, g_strdup_printf,
      if_neg (fun hh => hc hh.1), ih hcs]

theorem g_strdup_printf_head (arg : CStr) :
    g_strdup_printf "The keyserver returned an error message:\n\n%s".toList arg
      = keyserverMessageHead ++ arg := by
  have e : "The keyserver returned an error message:\n\n%s".toList
      = keyserverMessageHead ++ '%' :: 's' :: [] := by decide
  rw [e, g_strdup_printf_append keyserverMessageHead [] arg (by decide)]
  simp

/-- The guard `rc < 1 && rc > 8` holds for no code. -/
theorem hkp_guard_never (rc : Int) : ¬ (rc < 1 ∧ rc > 8) := by omega

/-- A run of `gpapa_dehtml` stays inside its buffers exactly on an input that
holds a `'<'` and closes each one. -/
theorem dehtmlInBounds_iff (p : CStr) :
    dehtmlInBounds p = true ↔ '<' ∈ p ∧ tagsClosed p = true := by
  unfold dehtmlInBounds dehtmlBytesStored dehtmlBufferSize
  rw [dehtmlRun_pastTerminator, gpapa_dehtml_eq, stripTags]
  simp only [Bool.not_not, Bool.and_eq_true, decide_eq_true_eq]
  constructor
  · rintro ⟨hc, hl⟩
    refine ⟨?_, hc⟩
    by_contra hno
    rw [stripSpans_of_no_open p hno] at hl
    omega
  · rintro ⟨hm, hc⟩
    have := stripSpans_length_lt p hm
    exact ⟨hc, by omega⟩

theorem gpapa_report_hkp_error_eq (rc : Int) (diag : CStr) :
    gpapa_report_hkp_error rc diag =
      if rc = 2 ∨ rc = 3 then
        if dehtmlInBounds diag = true then
          (hkpErrtypestrAt (rc - 1)).map (fun format =>
            [{ action := GpapaAction.GPAPA_ACTION_ERROR
               message := String.mk (g_strdup_printf format.toList (gpapa_dehtml diag)) }])
        else none
      else
        (hkpErrtypestrAt (rc - 1)).map (fun text =>
          [{ action := GpapaAction.GPAPA_ACTION_ERROR, message := text }]) := by
  unfold gpapa_report_hkp_error
  simp only [if_neg (hkp_guard_never rc), HKPERR_RECVKEY, HKPERR_SENDKEY]

theorem hkpErrtypestrAt_outside (i : Int) (h : ¬ (0 ≤ i ∧ i < 8)) : hkpErrtypestrAt i = none := by
  unfold hkpErrtypestrAt
  by_cases h0 : 0 ≤ i
  · rw [if_pos h0]
    apply List.get?_eq_none.mpr
    have : hkp_errtypestr.length = 8 := rfl
    omega
  · rw [if_neg h0]

/-- C22. For every code outside 1 to 8 `gpapa_report_hkp_error` does not fall
back to the generic message: the guard `rc < 1 && rc > 8` holds for no code, so
the code is kept and `hkp_errtypestr[rc - 1]` is read outside the 8-entry
table (index 8 for code 9, index -1 for code 0). -/
theorem gpapa_report_hkp_error_outside :
    (∀ rc : Int, ¬ (rc < 1 ∧ rc > 8)) ∧
    (∀ (rc : Int) (diag : CStr), ¬ (1 ≤ rc ∧ rc ≤ 8) → gpapa_report_hkp_error rc diag = none) ∧
    gpapa_report_hkp_error 9 [] = none ∧
    gpapa_report_hkp_error 0 [] = none ∧
    gpapa_report_hkp_error (-1) [] = none ∧
    gpapa_report_hkp_error 1 [] =
      some [{ action := GpapaAction.GPAPA_ACTION_ERROR, message := "General error" }] := by
  refine ⟨hkp_guard_never, ?_, by decide, by decide, by decide, by decide⟩
  intro rc diag h
  have c23 : ¬ (rc = 2 ∨ rc = 3) := by omega
  rw [gpapa_report_hkp_error_eq, if_neg c23, hkpErrtypestrAt_outside (rc - 1) (by omega)]
  rfl

/-- C23. For every code `c` from 1 to 8 other than 2 and 3
`gpapa_report_hkp_error` invokes the callback exactly once, with the error
action and the text of table entry `c`, which holds no conversion. For
`c = 2` and `c = 3` the diagnostic goes through `gpapa_dehtml` first: on a
diagnostic that holds a `'<'` and closes each one the callback is invoked
exactly once with "The keyserver returned an error message:", a blank line and
the diagnostic without its tag spans; on any other diagnostic, such as
"Key not found" or "a<b", that call leaves its buffers and the report is not
determined. -/
theorem gpapa_report_hkp_error_table (c : Int) (diag : CStr) (h : 1 ≤ c ∧ c ≤ 8) :
    (∃ entry : String,
      hkp_errtypestr.get? (c - 1).toNat = some entry ∧
      ((c = 2 ∨ c = 3) →
        entry = "The keyserver returned an error message:\n\n%s" ∧
        (dehtmlInBounds diag = true →
          gpapa_dehtml diag = stripTags diag ∧
          gpapa_report_hkp_error c diag =
            some [{ action := GpapaAction.GPAPA_ACTION_ERROR
                    message := String.mk (keyserverMessageHead ++ stripTags diag) }]) ∧
        (dehtmlInBounds diag = false → gpapa_report_hkp_error c diag = none)) ∧
      (¬ (c = 2 ∨ c = 3) →
        '%' ∉ entry.toList ∧
        gpapa_report_hkp_error c diag =
          some [{ action := GpapaAction.GPAPA_ACTION_ERROR, message := entry }])) ∧
    (dehtmlInBounds diag = true ↔ '<' ∈ diag ∧ tagsClosed diag = true) ∧
    gpapa_report_hkp_error 2 "Key not found".toList = none ∧
    gpapa_report_hkp_error 3 "a<b".toList = none := by
  refine ⟨?_, dehtmlInBounds_iff diag, by decide, by decide⟩
  have hc : c = 1 ∨ c = 2 ∨ c = 3 ∨ c = 4 ∨ c = 5 ∨ c = 6 ∨ c = 7 ∨ c = 8 := by omega
  have h23 : ∀ c : Int, c = 2 ∨ c = 3 → dehtmlInBounds diag = true →
      gpapa_report_hkp_error c diag =
        some [{ action := GpapaAction.GPAPA_ACTION_ERROR
                message := String.mk (keyserverMessageHead ++ stripTags diag) }] := by
    intro c hc hb
    rw [gpapa_report_hkp_error_eq, if_pos hc, if_pos hb, gpapa_dehtml_eq]
    rcases hc with rfl | rfl
    · show Option.map _ (some "The keyserver returned an error message:\n\n%s") = _
      rw [Option.map_some', g_strdup_printf_head]
    · show Option.map _ (some "The keyserver returned an error message:\n\n%s") = _
      rw [Option.map_some', g_strdup_printf_head]
  have hno : ∀ c : Int, c = 2 ∨ c = 3 → dehtmlInBounds diag = false →
      gpapa_report_hkp_error c diag = none := by
    intro c hc hb
    have hb2 : ¬ (dehtmlInBounds diag = true) := by rw [hb]; decide
    rw [gpapa_report_hkp_error_eq, if_pos hc, if_neg hb2]
  have hfix : ∀ c : Int, ¬ (c = 2 ∨ c = 3) →
      gpapa_report_hkp_error c diag =
        (hkpErrtypestrAt (c - 1)).map (fun text =>
          [{ action := GpapaAction.GPAPA_ACTION_ERROR, message := text }]) := by
    intro c hc
    rw [gpapa_report_hkp_error_eq, if_neg hc]
  rcases hc with rfl | rfl | rfl | rfl | rfl | rfl | rfl | rfl
  · exact ⟨"General error", rfl, fun h => by omega,
      fun hn => ⟨by decide, by rw [hfix 1 hn]; rfl⟩⟩
  · exact ⟨_, rfl,
      fun _ => ⟨rfl, fun hb => ⟨gpapa_dehtml_eq diag, h23 2 (Or.inl rfl) hb⟩,
        hno 2 (Or.inl rfl)⟩,
      fun h => (h (Or.inl rfl)).elim⟩
  · exact ⟨_, rfl,
      fun _ => ⟨rfl, fun hb => ⟨gpapa_dehtml_eq diag, h23 3 (Or.inr rfl) hb⟩,
        hno 3 (Or.inr rfl)⟩,
      fun h => (h (Or.inr rfl)).elim⟩
  · exact ⟨"Keyserver timeout", rfl, fun h => by omega,
      fun hn => ⟨by decide, by rw [hfix 4 hn]; rfl⟩⟩
  · exact ⟨"Error initializing network", rfl, fun h => by omega,
      fun hn => ⟨by decide, by rw [hfix 5 hn]; rfl⟩⟩
  · exact ⟨"Error resolving host name", rfl, fun h => by omega,
      fun hn => ⟨by decide, by rw [hfix 6 hn]; rfl⟩⟩
  · exact ⟨"Socket error", rfl, fun h => by omega,
      fun hn => ⟨by decide, by rw [hfix 7 hn]; rfl⟩⟩
  · exact ⟨"Error while connecting to keyserver", rfl, fun h => by omega,
      fun hn => ⟨by decide, by rw [hfix 8 hn]; rfl⟩⟩

/-- C23 at code 2 with an HTML diagnostic. -/
theorem gpapa_report_hkp_error_table_witness :
    gpapa_report_hkp_error 2 "<h1>Error</h1>Key <b>not</b> found".toList =
      some [{ action := GpapaAction.GPAPA_ACTION_ERROR
              message := "The keyserver returned an error message:\n\nErrorKey not found" }] := by
  obtain ⟨⟨entry, _, h2, _⟩, _⟩ :=
    gpapa_report_hkp_error_table 2 "<h1>Error</h1>Key <b>not</b> found".toList (by decide)
  rw [((h2 (Or.inl rfl)).2.1 (by decide)).2]
  decide

/-- For a code from 1 to 8 the report is one invocation with the error action,
for the codes 2 and 3 provided the diagnostic is handled within bounds. -/
theorem gpapa_report_hkp_error_some (c : Int) (diag : CStr) (h : 1 ≤ c ∧ c ≤ 8)
    (hd : c = 2 ∨ c = 3 → dehtmlInBounds diag = true) :
    ∃ m : String, gpapa_report_hkp_error c diag =
      some [{ action := GpapaAction.GPAPA_ACTION_ERROR, message := m }] := by
  by_cases h23 : c = 2 ∨ c = 3
  · rcases h23 with rfl | rfl
    · exact ⟨_, by rw [gpapa_report_hkp_error_eq, if_pos (Or.inl rfl),
        if_pos (hd (Or.inl rfl))]; rfl⟩
    · exact ⟨_, by rw [gpapa_report_hkp_error_eq, if_pos (Or.inr rfl),
        if_pos (hd (Or.inr rfl))]; rfl⟩
  · have hc : c = 1 ∨ c = 4 ∨ c = 5 ∨ c = 6 ∨ c = 7 ∨ c = 8 := by omega
    rcases hc with rfl | rfl | rfl | rfl | rfl | rfl <;>
      exact ⟨_, by rw [gpapa_report_hkp_error_eq, if_neg h23]; rfl⟩

/-! ## The keyserver search (C24) -/

theorem searchLoop_records (diag : CStr) (t : Int) (buf : keyserver_key) (rest : List SearchPull)
    (ht : t ≠ 0) :
    ∀ (recs : List keyserver_key) (g : List GpapaKey) (n : Nat),
      searchLoop diag (recordPulls recs ++ { status := t, key_buffer := buf } :: rest) g n =
        some { keys := g ++ (recs.filter (fun r => decide (r.keyid ≠ []))).map minimalKey
               pulls := n + recs.length + 1
               report := if t = 1 then some [] else gpapa_report_hkp_error t diag } := by
  intro recs
  induction recs with
  | nil =>
    intro g n
    simp only [recordPulls, List.map_nil, List.nil_append, searchLoop, if_neg ht,
      List.filter_nil, List.append_nil, List.length_nil, Nat.add_zero]
    by_cases h1 : t = 1
    · simp [h1]
    · simp [h1]
  | cons r rs ih =>
    intro g n
    have e : recordPulls (r :: rs) = { status := 0, key_buffer := r } :: recordPulls rs := rfl
    rw [e, List.cons_append, searchLoop, if_pos rfl, ih]
    cases hk : r.keyid with
    | nil =>
      simp only [List.head?_nil, ne_eq, not_true_eq_false, if_false, List.length_cons]
      have hf : (r :: rs).filter (fun r => decide (r.keyid ≠ []))
          = rs.filter (fun r => decide (r.keyid ≠ [])) := by
        rw [List.filter_cons_of_neg]
        simp [hk]
      rw [hf]
      have : n + 1 + rs.length + 1 = n + (rs.length + 1) + 1 := by omega
      rw [this]
    | cons c cs =>
      have hf : (r :: rs).filter (fun r => decide (r.keyid ≠ []))
          = r :: rs.filter (fun r => decide (r.keyid ≠ [])) := by
        rw [List.filter_cons_of_pos]
        simp [hk]
      have hm : ({ gpapa_key_new (c :: cs) with UserID := some r.uid } : GpapaKey)
          = minimalKey r := by
        simp only [minimalKey, gpapa_key_new, hk]
      have hn : n + 1 + rs.length + 1 = n + (rs.length + 1) + 1 := by omega
      simp only [List.head?_cons, ne_eq, reduceCtorEq, not_false_eq_true, if_true,
        List.length_cons, hf, hm, List.map_cons, List.append_assoc, List.singleton_append, hn]

/-- C24. With a server name and an opened search, when the server delivers the
records `recs` with status 0 and then a status `t` from 1 to 8, where for
`t = 2` and `t = 3` the diagnostic of the server is one that `gpapa_dehtml`
handles within its buffers, the search returns after `recs.length + 1` pulls;
it returns, in order, one minimal Key for each of these records whose key ID is
not empty (for every record when no key ID is empty) and none for a record with
an empty key ID; it makes no callback invocation when `t` is 1 and exactly one,
with the error action, otherwise, and the keys collected so far are returned in
both cases. -/
theorem search_public_keys_records (server : CStr) (recs : List keyserver_key) (t : Int)
    (buf : keyserver_key) (rest : List SearchPull) (diag : CStr) (ht : 1 ≤ t ∧ t ≤ 8)
    (hd : t = 2 ∨ t = 3 → dehtmlInBounds diag = true) :
    gpapa_search_public_keys_on_server (some server) 0
        (recordPulls recs ++ { status := t, key_buffer := buf } :: rest) diag =
      some { keys := (recs.filter (fun r => decide (r.keyid ≠ []))).map minimalKey
             pulls := recs.length + 1
             report := if t = 1 then some [] else gpapa_report_hkp_error t diag } ∧
    ((∀ r ∈ recs, r.keyid ≠ []) →
      (recs.filter (fun r => decide (r.keyid ≠ []))).map minimalKey = recs.map minimalKey) ∧
    (t ≠ 1 → ∃ m : String, gpapa_report_hkp_error t diag =
      some [{ action := GpapaAction.GPAPA_ACTION_ERROR, message := m }]) := by
  refine ⟨?_, ?_, fun _ => gpapa_report_hkp_error_some t diag ht hd⟩
  · have h0 : t ≠ 0 := by omega
    have c0 : ¬ ((0 : Int) ≠ 0) := fun h => h rfl
    simp only [gpapa_search_public_keys_on_server, if_neg c0]
    rw [searchLoop_records diag t buf rest h0 recs [] 0]
    simp
  · intro h
    rw [List.filter_eq_self.mpr]
    intro r hr
    simp [h r hr]

/-- C24 on two records followed by an error of the server with an HTML
diagnostic. -/
theorem search_public_keys_records_witness :
    gpapa_search_public_keys_on_server (some "keys.example.org".toList) 0
        (recordPulls
            [{ keyid := "5B0358A2".toList, uid := "Alice".toList },
             { keyid := "621CC013".toList, uid := "Bob".toList }]
          ++ { status := 2, key_buffer := { keyid := [], uid := [] } } :: [])
        "<p>busy</p>".toList =
      some { keys := [minimalKey { keyid := "5B0358A2".toList, uid := "Alice".toList },
                      minimalKey { keyid := "621CC013".toList, uid := "Bob".toList }]
             pulls := 3
             report := some [{ action := GpapaAction.GPAPA_ACTION_ERROR
                               message :=
                                 "The keyserver returned an error message:\n\nbusy" }] } := by
  rw [(search_public_keys_records "keys.example.org".toList
    [{ keyid := "5B0358A2".toList, uid := "Alice".toList },
     { keyid := "621CC013".toList, uid := "Bob".toList }] 2
    { keyid := [], uid := [] } [] "<p>busy</p>".toList (by decide) (by decide)).1]
  decide

/-- C24 fails for a record without key ID: the server delivers two records with
status 0 and then the end of the results, and the search returns one Key. -/
theorem search_public_keys_records_counterexample :
    gpapa_search_public_keys_on_server (some "keys.example.org".toList) 0
        [{ status := 0, key_buffer := { keyid := [], uid := "Alice".toList } },
         { status := 0, key_buffer := { keyid := "621CC013".toList, uid := "Bob".toList } },
         { status := 1, key_buffer := { keyid := [], uid := [] } }] [] =
      some { keys := [minimalKey { keyid := "621CC013".toList, uid := "Bob".toList }]
             pulls := 3
             report := some [] } := by
  decide

/-! ## Fingerprint lines of a public refresh (C25) -/

end Gpapa
